import Mathlib

/-!
# Verification of the health-clinic queue system

A shallow embedding of the core of the `health-clinic-optimization`
repository, together with proofs and refutations of the specified
properties.

Times are modelled as rationals (`ℚ`), measured in minutes from midnight of
the simulated day; the Python code works with `datetime` values and float
minutes, and every arithmetic operation on them used by the embedded code
(difference in minutes, addition of a duration, comparison, `min`) is
mirrored exactly on `ℚ`.

The service-time repository (`Repository` + `DataFrameRepo` in the source)
is modelled as a total function `String → ℚ` from ticket type to expected
service duration: `get_estimated_service_time` performs an exact-match
lookup of the single row for the ticket type.  The lookup failure on an
unknown ticket type (an exception in Python, a configuration error per the
spec) is outside every claim considered here, which all quantify over
queues whose ticket types are covered by the repository.
-/

/-- Embedding of `src/entities/customer.py` (`Customer`): `customer_id`,
`arrival_time` (minutes from midnight), `ticket_type`, and the mutable
`jumps` counter (starts at 0, incremented by `update_jumps`).  Python
equality (`__eq__`) compares `customer_id` only; queue operations that rely
on it are embedded with an explicit comparison of `customer_id`. -/
structure Customer where
  customer_id : ℕ
  arrival_time : ℚ
  ticket_type : String
  jumps : ℕ
deriving DecidableEq, Repr

/-- Embedding of `Customer.update_jumps`: `self.jumps += 1`. -/
def Customer.update_jumps (c : Customer) : Customer :=
  { c with jumps := c.jumps + 1 }

/-- The service-time repository, modelled as a total lookup from ticket
type to expected service duration in minutes (see module comment). -/
abbrev Repo := String → ℚ

/-- Embedding of `get_estimated_service_time` in
`src/services/estimate_time_left.py`: look up the service time for the
customer's ticket type. -/
def get_estimated_service_time (c : Customer) (repo : Repo) : ℚ :=
  repo c.ticket_type

/-- Left fold of Python's binary `min` over the tail of a list; `min(l)`
for a nonempty `l = w :: ws` is `pyMinAux w ws`. -/
def pyMinAux (w : ℚ) : List ℚ → ℚ
  | [] => w
  | x :: xs => pyMinAux (min w x) xs

/-- Embedding of Python's built-in `min` on a list of floats: `none` on the
empty list (where Python raises `ValueError`). -/
def pyMin : List ℚ → Option ℚ
  | [] => none
  | w :: ws => some (pyMinAux w ws)

/-- Replace the first occurrence of `x` by `y`.  This embeds the source's
`idx = lst.index(x); lst[idx] = y` idiom (find the index of the first
element equal to `x`, overwrite it). -/
def replaceFirst (x y : ℚ) : List ℚ → List ℚ
  | [] => []
  | w :: ws => if w = x then y :: ws else w :: replaceFirst x y ws

/-- Recursive core of `estimate_total_times_in_line`
(`src/services/estimate_time_left.py`, lines 55-88): `ws` is
`window_availability_times`.  For each customer in queue order: take the
earliest available window time `m = min(ws)` (Python raises `ValueError`
when `ws = []`, i.e. `service_points = 0` with a nonempty queue — a
configuration error per the spec; that unreachable branch is embedded as
an empty result and is excluded by the hypotheses of every theorem below),
emit `(customer, time_already_waited + m)`, and advance the chosen
window's availability (`window_availability_times[index(m)] += service_time`,
embedded by `replaceFirst m (m + service_time)`). -/
def estimateGo (repo : Repo) (current_time : ℚ) :
    List ℚ → List Customer → List (Customer × ℚ)
  | _, [] => []
  | ws, c :: cs =>
    match pyMin ws with
    | none => []
    | some m =>
      (c, (current_time - c.arrival_time) + m) ::
        estimateGo repo current_time
          (replaceFirst m (m + get_estimated_service_time c repo) ws) cs

/-- Embedding of `estimate_total_times_in_line`: initialize one zero
"next-free" value per service point and run `estimateGo` over the queue. -/
def estimate_total_times_in_line (service_points : ℕ) (queue : List Customer)
    (repo : Repo) (current_time : ℚ) : List (Customer × ℚ) :=
  estimateGo repo current_time (List.replicate service_points 0) queue

-- ### Helper lemmas about `pyMin` and `replaceFirst`

lemma pyMinAux_append (w : ℚ) (l1 l2 : List ℚ) :
    pyMinAux w (l1 ++ l2) = pyMinAux (pyMinAux w l1) l2 := by
  induction l1 generalizing w with
  | nil => rfl
  | cons x xs ih => simp [pyMinAux, ih]

lemma pyMinAux_replicate (w a : ℚ) (n : ℕ) :
    pyMinAux w (List.replicate n a) = if n = 0 then w else min w a := by
  induction n generalizing w with
  | zero => rfl
  | succ n ih =>
    simp only [List.replicate_succ, pyMinAux, ih]
    rcases Nat.eq_zero_or_pos n with h | h
    · simp [h]
    · simp [Nat.pos_iff_ne_zero.mp h, min_assoc, min_self]

lemma pyMin_replicate_append (A B : ℚ) (hBA : B ≤ A) (r m : ℕ) (hm : 0 < m) :
    pyMin (List.replicate r A ++ List.replicate m B) = some B := by
  cases r with
  | zero =>
    cases m with
    | zero => omega
    | succ m =>
      simp only [List.replicate_succ, List.nil_append, pyMin, List.replicate,
        pyMinAux_replicate]
      rcases Nat.eq_zero_or_pos m with h | h
      · simp [h]
      · simp [Nat.pos_iff_ne_zero.mp h, min_self]
  | succ r =>
    simp only [List.replicate_succ, List.cons_append, pyMin, pyMinAux_append,
      pyMinAux_replicate]
    cases m with
    | zero => omega
    | succ m =>
      rcases Nat.eq_zero_or_pos r with h | h <;>
        simp_all [min_self, min_eq_right hBA]

lemma replaceFirst_replicate_append (x y a : ℚ) (hax : a ≠ x) (n : ℕ)
    (l : List ℚ) :
    replaceFirst x y (List.replicate n a ++ l)
      = List.replicate n a ++ replaceFirst x y l := by
  induction n with
  | zero => rfl
  | succ n ih => simp [List.replicate_succ, replaceFirst, hax, ih]

lemma replaceFirst_cons_self (x y : ℚ) (l : List ℚ) :
    replaceFirst x y (x :: l) = y :: l := by
  simp [replaceFirst]

-- ### C9: multi-window estimate with a uniform service duration

/-- Default element used for non-dependent list indexing (`List.getD`) in
estimator statements. -/
def estDflt : Customer × ℚ := (⟨0, 0, "", 0⟩, 0)

/-- Default customer used for non-dependent list indexing. -/
def custDflt : Customer := ⟨0, 0, "", 0⟩

/-- Window-state invariant step for the uniform-duration estimator: with
`r` windows already busy until `(q+1)*d` and `W - r` free at `q*d`, the
`j`-th remaining customer is projected to start waiting-in-queue for
exactly `((q*W + r + j) / W) * d` minutes beyond its elapsed wait. -/
lemma estimateGo_const (repo : Repo) (t d : ℚ) (hd : 0 < d) (W : ℕ)
    (cs : List Customer) :
    ∀ (q r : ℕ), r < W → (∀ c ∈ cs, repo c.ticket_type = d) →
      (estimateGo repo t
          (List.replicate r ((q + 1 : ℕ) * d) ++ List.replicate (W - r) ((q : ℕ) * d))
          cs).length = cs.length ∧
      ∀ j < cs.length,
        ((estimateGo repo t
          (List.replicate r ((q + 1 : ℕ) * d) ++ List.replicate (W - r) ((q : ℕ) * d))
          cs).getD j estDflt).2
          = (t - (cs.getD j custDflt).arrival_time)
            + (((q * W + r + j) / W : ℕ) : ℚ) * d := by
  induction cs with
  | nil =>
    intro q r hr hall
    constructor
    · rfl
    · intro j hj; exact absurd hj (by simp)
  | cons c cs ih =>
    intro q r hr hall
    have hqd : ((q : ℕ) : ℚ) * d ≤ ((q + 1 : ℕ) : ℚ) * d := by
      have h : ((q : ℕ) : ℚ) ≤ ((q + 1 : ℕ) : ℚ) := by exact_mod_cast Nat.le_succ q
      exact mul_le_mul_of_nonneg_right h (le_of_lt hd)
    have hne : ((q + 1 : ℕ) : ℚ) * d ≠ ((q : ℕ) : ℚ) * d := by
      have h : ((q : ℕ) : ℚ) < ((q + 1 : ℕ) : ℚ) := by exact_mod_cast Nat.lt_succ_self q
      exact ne_of_gt (mul_lt_mul_of_pos_right h hd)
    have hmin : pyMin (List.replicate r ((q + 1 : ℕ) * d)
        ++ List.replicate (W - r) ((q : ℕ) * d)) = some ((q : ℕ) * d) :=
      pyMin_replicate_append _ _ hqd r (W - r) (by omega)
    have hsvc : get_estimated_service_time c repo = d := hall c (by simp)
    have hbump : ((q : ℕ) : ℚ) * d + d = ((q + 1 : ℕ) : ℚ) * d := by
      push_cast; ring
    have hrep : replaceFirst ((q : ℕ) * d) ((q : ℕ) * d + d)
        (List.replicate r ((q + 1 : ℕ) * d) ++ List.replicate (W - r) ((q : ℕ) * d))
        = List.replicate (r + 1) ((q + 1 : ℕ) * d)
          ++ List.replicate (W - (r + 1)) ((q : ℕ) * d) := by
      rw [replaceFirst_replicate_append _ _ _ hne]
      have hWr : W - r = (W - (r + 1)) + 1 := by omega
      rw [hWr, List.replicate_succ, replaceFirst_cons_self, hbump]
      have h2 : List.replicate (r + 1) (((q + 1 : ℕ) : ℚ) * d)
          = List.replicate r (((q + 1 : ℕ) : ℚ) * d) ++ [((q + 1 : ℕ) : ℚ) * d] := by
        rw [← List.replicate_succ']
      rw [h2]
      simp
    have hstep : estimateGo repo t
        (List.replicate r ((q + 1 : ℕ) * d) ++ List.replicate (W - r) ((q : ℕ) * d))
        (c :: cs)
        = (c, (t - c.arrival_time) + ((q : ℕ) : ℚ) * d) ::
          estimateGo repo t
            (List.replicate (r + 1) ((q + 1 : ℕ) * d)
              ++ List.replicate (W - (r + 1)) ((q : ℕ) * d)) cs := by
      simp only [estimateGo, hmin, hsvc, hrep]
    have hall' : ∀ x ∈ cs, repo x.ticket_type = d := fun x hx => hall x (by simp [hx])
    have hdiv0 : (q * W + r) / W = q := by
      have h1 : q * W + r = r + q * W := by ring
      rw [h1, Nat.add_mul_div_right _ _ (by omega : 0 < W), Nat.div_eq_of_lt hr]
      omega
    rcases Nat.lt_or_ge (r + 1) W with hrW | hrW
    · -- the same "quotient block" continues
      obtain ⟨ihlen, ihval⟩ := ih (q := q) (r := r + 1) hrW hall'
      refine ⟨by rw [hstep]; simpa using ihlen, ?_⟩
      intro j hj
      rw [hstep]
      cases j with
      | zero => simp [hdiv0]
      | succ j =>
        have hjc : j < cs.length := by simpa using hj
        have h3 : q * W + (r + 1) + j = q * W + r + (j + 1) := by ring
        simpa [h3] using ihval j hjc
    · -- the block rolls over: r + 1 = W, restart with quotient q + 1
      have hrW' : r + 1 = W := by omega
      have hroll : List.replicate (r + 1) ((q + 1 : ℕ) * d)
            ++ List.replicate (W - (r + 1)) ((q : ℕ) * d)
          = List.replicate 0 ((q + 1 + 1 : ℕ) * d)
            ++ List.replicate (W - 0) ((q + 1 : ℕ) * d) := by
        rw [hrW']
        simp
      obtain ⟨ihlen, ihval⟩ := ih (q := q + 1) (r := 0) (by omega) hall'
      refine ⟨by rw [hstep, hroll]; simpa using ihlen, ?_⟩
      intro j hj
      rw [hstep, hroll]
      cases j with
      | zero => simp [hdiv0]
      | succ j =>
        have hjc : j < cs.length := by simpa using hj
        have h3 : (q + 1) * W + j = q * W + r + (j + 1) := by
          rw [← hrW']; ring
        simpa [h3] using ihval j hjc

/-- C9: with `W ≥ 1` service windows and every customer sharing one
service duration `d > 0`, `estimate_total_times_in_line` projects the
wait-until-service component (projected total wait minus the time already
waited) of the customer at 0-indexed position `k` to be exactly
`⌊k / W⌋ * d` (earliest-free window chosen, ties broken by lowest window
index as in the source's `list.index`). -/
theorem C9_multiwindow_uniform_duration (W : ℕ) (hW : 0 < W) (d : ℚ)
    (hd : 0 < d) (repo : Repo) (t : ℚ) (queue : List Customer)
    (hall : ∀ c ∈ queue, repo c.ticket_type = d) :
    (estimate_total_times_in_line W queue repo t).length = queue.length ∧
    ∀ k < queue.length,
      ((estimate_total_times_in_line W queue repo t).getD k estDflt).2
        - (t - (queue.getD k custDflt).arrival_time)
        = ((k / W : ℕ) : ℚ) * d := by
  have hinit : List.replicate W (0 : ℚ)
      = List.replicate 0 ((0 + 1 : ℕ) * d) ++ List.replicate (W - 0) ((0 : ℕ) * d) := by
    simp
  obtain ⟨hlen, hval⟩ := estimateGo_const repo t d hd W queue 0 0 hW hall
  constructor
  · rw [estimate_total_times_in_line, hinit]; exact hlen
  · intro k hk
    have h := hval k hk
    rw [estimate_total_times_in_line, hinit, h]
    have h4 : 0 * W + 0 + k = k := by ring
    rw [h4]
    ring

/-- Witness for C9 at the spec's own test vector: `W = 2`, `d = 10`,
5 customers all arrived at time 0, evaluated at `t = 0`; the projected
wait-until-service of the customer at position 4 is `⌊4/2⌋ * 10 = 20`. -/
theorem C9_multiwindow_uniform_duration_witness :
    ((estimate_total_times_in_line 2
        [⟨0, 0, "NP", 0⟩, ⟨1, 0, "NP", 0⟩, ⟨2, 0, "NP", 0⟩,
         ⟨3, 0, "NP", 0⟩, ⟨4, 0, "NP", 0⟩] (fun _ => 10) 0).getD 4 estDflt).2
      - (0 - (([⟨0, 0, "NP", 0⟩, ⟨1, 0, "NP", 0⟩, ⟨2, 0, "NP", 0⟩,
         ⟨3, 0, "NP", 0⟩, (⟨4, 0, "NP", 0⟩ : Customer)].getD 4 custDflt)).arrival_time)
      = ((4 / 2 : ℕ) : ℚ) * 10 :=
  (C9_multiwindow_uniform_duration 2 (by decide) 10 (by decide)
    (fun _ => 10) 0 _ (fun _ _ => rfl)).2 4 (by decide)

-- ## The queue optimizer: `src/services/manipulate_queue.py`

/-- One tentative skip recorded while walking forward from a priority
customer (`calculate_customer_new_position`): the non-priority customer
being skipped, the new projected wait computed for it at skip time
(`new_estimated_waiting_time_non_p`), and whether this skip consumed a
unit of the forced-skip budget (`made_a_special_jump_for_this_np`). -/
structure SkipRec where
  skipped : Customer
  newWait : ℚ
  forced : Bool
deriving DecidableEq, Repr

/-- The walking loop of `calculate_customer_new_position`
(`manipulate_queue.py`, lines 82-123), over the entries of
`queue_n_times` at indices `ix = 1, 2, ...` (the preceding customers in
reversed order).  State: `pWait` is `new_estimated_waiting_time_p`,
`used` is `p_jumps_used_this_call`.  Stops (returns no further skips)
when the preceding entry is priority-tagged, when its `jumps` has reached
`jumps_limit`, or when its new wait would exceed `non_p_threshold` with
no forced-skip budget left; after an allowed skip, stops when the
priority customer's running wait has dropped below `p_threshold`.
Returns the list of allowed skips in order.  (The source's in-place
update of `queue_n_times[ix]` at line 118 writes to a local slice copy
and is never read again, so it does not affect the result.) -/
def calcSkips (repo : Repo) (priority_tickets : List String)
    (p_threshold non_p_threshold : ℚ) (max_jumps_p jumps_limit : ℕ)
    (customer : Customer) :
    ℚ → ℕ → List (Customer × ℚ) → List SkipRec
  | _, _, [] => []
  | pWait, used, (c, w) :: rest =>
    if c.ticket_type ∈ priority_tickets then []
    else if c.jumps ≥ jumps_limit then []
    else
      let wNew := w + get_estimated_service_time customer repo
      if wNew ≤ non_p_threshold then
        let pWait' := pWait - get_estimated_service_time c repo
        ⟨c, wNew, false⟩ ::
          (if pWait' < p_threshold then []
           else calcSkips repo priority_tickets p_threshold non_p_threshold
             max_jumps_p jumps_limit customer pWait' used rest)
      else if used < max_jumps_p then
        let pWait' := pWait - get_estimated_service_time c repo
        ⟨c, wNew, true⟩ ::
          (if pWait' < p_threshold then []
           else calcSkips repo priority_tickets p_threshold non_p_threshold
             max_jumps_p jumps_limit customer pWait' (used + 1) rest)
      else []

/-- Embedding of `calculate_customer_new_position` (`manipulate_queue.py`,
lines 20-124).  `queue_n_times[0]` is the priority customer with its
current estimated wait; the returned `new_pos` is the loop's final `new_pos`,
which equals the index `ix` of the last allowed skip; since skips are
allowed only at the consecutive indices `1, 2, ...` up to the first stop,
that index equals the number of allowed skips.  `max_jumps_p` and
`jumps_limit` are `int` in the source; a negative `jumps_limit` behaves
exactly like `0` there (every `jumps >= jumps_limit` test passes), so the
embedding uses `ℕ`. -/
def calculate_customer_new_position (queue_n_times : List (Customer × ℚ))
    (customer : Customer) (p_threshold non_p_threshold : ℚ)
    (priority_tickets : List String) (repo : Repo)
    (max_jumps_p jumps_limit : ℕ) : ℕ :=
  match queue_n_times with
  | [] => 0
  | (_, w0) :: rest =>
    (calcSkips repo priority_tickets p_threshold non_p_threshold
      max_jumps_p jumps_limit customer w0 0 rest).length

/-- The jump-update sweep of a move (`update_queue_improved`, lines
264-295): every customer at an index `i` with `target ≤ i < cur`
(`skipped_customer_original_idx` running from `new_target_index` up to but
not including `current_actual_idx`) that is not priority-tagged has its
`jumps` incremented; the argument `i` is the index of the head of the
remaining list. -/
def bumpSkipped (priority_tickets : List String) (target cur : ℕ) :
    ℕ → List Customer → List Customer
  | _, [] => []
  | i, c :: cs =>
    (if target ≤ i ∧ i < cur ∧ c.ticket_type ∉ priority_tickets then
      c.update_jumps else c) :: bumpSkipped priority_tickets target cur (i + 1) cs

/-- Removal of the first element equal to the given customer, where
Python equality (`Customer.__eq__`) compares `customer_id`; embeds
`deque.remove(customer)` in `PriorityQueueLeo.update_priority`.  (Python
raises `ValueError` when no element matches; in every use below the
customer is present in the queue, so the dead branch returns the list
unchanged.) -/
def removeFirstById (cid : ℕ) : List Customer → List Customer
  | [] => []
  | c :: cs => if c.customer_id = cid then cs else c :: removeFirstById cid cs

/-- Python `list.insert` / `deque.insert` semantics: insert before index
`n`, clamping to the end when `n` exceeds the length. -/
def pyInsert (n : ℕ) (a : Customer) : List Customer → List Customer
  | [] => [a]
  | c :: cs =>
    match n with
    | 0 => a :: c :: cs
    | n + 1 => c :: pyInsert n a cs

/-- Embedding of `PriorityQueueLeo.update_priority`
(`src/external_systems/priority_queue_leo.py`, lines 56-71):
`self.queue.remove(customer); self.queue.insert(new_position, customer)`. -/
def update_priority (q : List Customer) (customer : Customer)
    (new_position : ℕ) : List Customer :=
  pyInsert new_position customer (removeFirstById customer.customer_id q)

/-- The scan of one optimization pass (`update_queue_improved`, lines
218-314) over `customers_at_pass_start`, looking for the first customer
that triggers a move: the customer must be priority-tagged (the source's
threshold test `customer_estimated_wait > p_threshold` is commented out
at line 226, so no wait-time condition applies), its
`calculate_customer_new_position` over the reversed estimate slice
`estimated_waiting_times[: idx + 1][::-1]` must be positive, and the
resulting target index `idx - num` (floored at 0 by line 255-256, which
ℕ-subtraction mirrors) must differ from the current index.  Returns the
index and skip count of the move, or `none` when the pass makes no
change. -/
def findMove (repo : Repo) (priority_tickets : List String)
    (p_threshold non_p_threshold : ℚ) (max_jumps_p jumps_limit : ℕ)
    (est : List (Customer × ℚ)) :
    ℕ → List Customer → Option (ℕ × ℕ)
  | _, [] => none
  | i, c :: cs =>
    if c.ticket_type ∈ priority_tickets then
      let num := calculate_customer_new_position ((est.take (i + 1)).reverse) c
        p_threshold non_p_threshold priority_tickets repo max_jumps_p jumps_limit
      if 0 < num ∧ i - num ≠ i then some (i, num)
      else findMove repo priority_tickets p_threshold non_p_threshold
        max_jumps_p jumps_limit est (i + 1) cs
    else findMove repo priority_tickets p_threshold non_p_threshold
      max_jumps_p jumps_limit est (i + 1) cs

/-- One full pass of the stabilization loop of `update_queue_improved`
(lines 179-319): recompute the estimated waiting times, scan for the
first move, and if one exists perform it (increment the jumps of the
skipped non-priority customers from the pass-start snapshot, then
reposition the priority customer via `update_priority`) and report the
changed queue; `none` means the pass made no change (`made_change_in_pass`
stayed false) and the `while True` loop exits. -/
def onePass (repo : Repo) (service_points : ℕ)
    (priority_tickets : List String) (p_threshold non_p_threshold : ℚ)
    (current_time : ℚ) (max_jumps_p jumps_limit : ℕ)
    (q : List Customer) : Option (List Customer) :=
  let est := estimate_total_times_in_line service_points q repo current_time
  match findMove repo priority_tickets p_threshold non_p_threshold
      max_jumps_p jumps_limit est 0 q with
  | none => none
  | some (i, num) =>
    let target := i - num
    let q1 := bumpSkipped priority_tickets target i 0 q
    some (update_priority q1 (q.getD i custDflt) target)

/-- The `while True` stabilization loop, with an explicit pass budget:
`optLoop (n+1)` runs one pass and recurses on a change, stopping at the
first pass that makes no change. -/
def optLoop (repo : Repo) (service_points : ℕ)
    (priority_tickets : List String) (p_threshold non_p_threshold : ℚ)
    (current_time : ℚ) (max_jumps_p jumps_limit : ℕ) :
    ℕ → List Customer → List Customer
  | 0, q => q
  | fuel + 1, q =>
    match onePass repo service_points priority_tickets p_threshold
        non_p_threshold current_time max_jumps_p jumps_limit q with
    | none => q
    | some q' => optLoop repo service_points priority_tickets p_threshold
        non_p_threshold current_time max_jumps_p jumps_limit fuel q'

/-- Total headroom left under the skip-count ceiling: the sum over the
queue of `jumps_limit - jumps` (truncated at 0).  Every pass that makes a
move strictly decreases it (each move increments the jumps of at least
one non-priority customer whose jumps were checked to be below
`jumps_limit`), which bounds the number of passes the source's
`while True` loop can run. -/
def jumpsSlack (jumps_limit : ℕ) (q : List Customer) : ℕ :=
  (q.map (fun c => jumps_limit - c.jumps)).sum

/-- Embedding of `update_queue_improved` (`manipulate_queue.py`, lines
127-321).  The source's `while True` loop exits at the first pass making
no change; for queues with pairwise-distinct customer ids the theorems
below show `jumpsSlack` bounds the number of changing passes, so the pass
budget `jumpsSlack + 1` reproduces the loop exactly (and the result is
independent of any larger budget).  The `debug` parameter only controls
printing and is dropped. -/
def update_queue_improved (q : List Customer) (repo : Repo)
    (service_points : ℕ) (priority_tickets : List String)
    (p_threshold non_p_threshold : ℚ) (current_time : ℚ)
    (max_jumps_p jumps_limit : ℕ) : List Customer :=
  optLoop repo service_points priority_tickets p_threshold non_p_threshold
    current_time max_jumps_p jumps_limit (jumpsSlack jumps_limit q + 1) q

-- ### Properties of the skip-walking loop

/-- Default `SkipRec` for non-dependent indexing. -/
def skipDflt : SkipRec := ⟨custDflt, 0, false⟩

/-- C5: every skip permitted by the walking loop of
`calculate_customer_new_position` that does not consume a unit of the
forced-skip budget (`forced = false`, i.e. the source's
`made_a_special_jump_for_this_np` stayed false) has its new projected
wait — computed at skip time as the old projected wait plus the priority
customer's expected service duration (`new_estimated_waiting_time_non_p`,
the `newWait` field) — at most `non_p_threshold`. -/
theorem C5_nonforced_skip_protected (repo : Repo) (pt : List String)
    (pthr npthr : ℚ) (mjp jl : ℕ) (cust : Customer)
    (rest : List (Customer × ℚ)) (pWait : ℚ) (used : ℕ) (s : SkipRec)
    (hs : s ∈ calcSkips repo pt pthr npthr mjp jl cust pWait used rest)
    (hf : s.forced = false) : s.newWait ≤ npthr := by
  induction rest generalizing pWait used with
  | nil => simp [calcSkips] at hs
  | cons cw rest ih =>
    obtain ⟨c, w⟩ := cw
    simp only [calcSkips] at hs
    split at hs
    · simp at hs
    · split at hs
      · simp at hs
      · split at hs
        · rcases List.mem_cons.mp hs with h | h
          · subst h
            assumption
          · split at h
            · simp at h
            · exact ih _ _ h
        · split at hs
          · rcases List.mem_cons.mp hs with h | h
            · subst h
              simp at hf
            · split at h
              · simp at h
              · exact ih _ _ h
          · simp at hs

/-- Witness for C5: a concrete non-forced skip (new wait `3 ≤ 10`). -/
theorem C5_nonforced_skip_protected_witness :
    (⟨⟨1, 0, "NP", 0⟩, 3, false⟩ : SkipRec).newWait ≤ 10 :=
  C5_nonforced_skip_protected (fun _ => 1) ["P"] 0 10 0 1 ⟨2, 0, "P", 0⟩
    [(⟨1, 0, "NP", 0⟩, 2)] 5 0 _
    (by norm_num [calcSkips, get_estimated_service_time]
        decide) rfl

/-- Soundness of the walking loop: it records at most one skip per
preceding entry, in order, and every skipped entry is the corresponding
prefix entry of the input, is not priority-tagged, and has `jumps` still
strictly below `jumps_limit` (it passed the `jumps >= jumps_limit` check
before being skipped). -/
lemma calcSkips_facts (repo : Repo) (pt : List String) (pthr npthr : ℚ)
    (mjp jl : ℕ) (cust : Customer) :
    ∀ (rest : List (Customer × ℚ)) (pWait : ℚ) (used : ℕ),
      (calcSkips repo pt pthr npthr mjp jl cust pWait used rest).length
        ≤ rest.length ∧
      ∀ k < (calcSkips repo pt pthr npthr mjp jl cust pWait used rest).length,
        ((calcSkips repo pt pthr npthr mjp jl cust pWait used rest).getD k
            skipDflt).skipped = (rest.getD k estDflt).1 ∧
        (rest.getD k estDflt).1.ticket_type ∉ pt ∧
        (rest.getD k estDflt).1.jumps < jl := by
  intro rest
  induction rest with
  | nil => intro pWait used; simp [calcSkips]
  | cons cw rest ih =>
    obtain ⟨c, w⟩ := cw
    intro pWait used
    simp only [calcSkips]
    split
    · simp
    · split
      · simp
      · next hpt hjl =>
        have hjl' : c.jumps < jl := by omega
        split
        · -- unforced-skip branch
          split
          · -- the walk stops here (priority wait dropped below threshold)
            refine ⟨by simp, ?_⟩
            intro k hk
            have hk0 : k = 0 := by simpa using hk
            subst hk0
            exact ⟨rfl, hpt, hjl'⟩
          · obtain ⟨ih1, ih2⟩ := ih (pWait - get_estimated_service_time c repo) used
            refine ⟨by simpa [Nat.succ_le_succ] using ih1, ?_⟩
            intro k hk
            cases k with
            | zero => exact ⟨rfl, hpt, hjl'⟩
            | succ k => simpa using ih2 k (by simpa using hk)
        · split
          · -- forced-skip branch
            split
            · refine ⟨by simp, ?_⟩
              intro k hk
              have hk0 : k = 0 := by simpa using hk
              subst hk0
              exact ⟨rfl, hpt, hjl'⟩
            · obtain ⟨ih1, ih2⟩ :=
                ih (pWait - get_estimated_service_time c repo) (used + 1)
              refine ⟨by simpa [Nat.succ_le_succ] using ih1, ?_⟩
              intro k hk
              cases k with
              | zero => exact ⟨rfl, hpt, hjl'⟩
              | succ k => simpa using ih2 k (by simpa using hk)
          · simp

-- ### Estimator bookkeeping lemmas

lemma replaceFirst_length (x y : ℚ) (l : List ℚ) :
    (replaceFirst x y l).length = l.length := by
  induction l with
  | nil => rfl
  | cons w ws ih =>
    simp only [replaceFirst]
    split <;> simp [ih]

lemma estimateGo_nil_ws (repo : Repo) (t : ℚ) (cs : List Customer) :
    estimateGo repo t [] cs = [] := by
  cases cs <;> rfl

/-- With at least one window, the estimator returns exactly the queue's
customers in queue order as the first components. -/
lemma estimateGo_map_fst (repo : Repo) (t : ℚ) :
    ∀ (cs : List Customer) (ws : List ℚ), ws ≠ [] →
      (estimateGo repo t ws cs).map Prod.fst = cs := by
  intro cs
  induction cs with
  | nil => intro ws _; rfl
  | cons c cs ih =>
    intro ws hws
    match ws, hws with
    | w :: ws', _ =>
      simp only [estimateGo, pyMin, List.map_cons]
      refine congrArg (c :: ·) (ih _ ?_)
      have := replaceFirst_length (pyMinAux w ws')
        (pyMinAux w ws' + get_estimated_service_time c repo) (w :: ws')
      intro hnil
      rw [hnil] at this
      simp at this

-- ### Positional lemmas for the move machinery

lemma bumpSkipped_append (pt : List String) (t u : ℕ) :
    ∀ (xs ys : List Customer) (i : ℕ),
      bumpSkipped pt t u i (xs ++ ys)
        = bumpSkipped pt t u i xs ++ bumpSkipped pt t u (i + xs.length) ys := by
  intro xs
  induction xs with
  | nil => intro ys i; simp [bumpSkipped]
  | cons x xs ih =>
    intro ys i
    simp only [List.cons_append, bumpSkipped, List.length_cons, List.append_eq, ih]
    refine congrArg _ ?_
    have h : i + 1 + xs.length = i + (xs.length + 1) := by omega
    rw [h]

lemma bumpSkipped_of_le_target (pt : List String) (t u : ℕ) :
    ∀ (xs : List Customer) (i : ℕ), i + xs.length ≤ t →
      bumpSkipped pt t u i xs = xs := by
  intro xs
  induction xs with
  | nil => intro i _; rfl
  | cons x xs ih =>
    intro i hi
    simp only [List.length_cons] at hi
    have h1 : ¬(t ≤ i ∧ i < u ∧ x.ticket_type ∉ pt) := by
      intro hcon; omega
    simp only [bumpSkipped, if_neg h1]
    rw [ih (i + 1) (by omega)]

lemma bumpSkipped_of_ge_cur (pt : List String) (t u : ℕ) :
    ∀ (xs : List Customer) (i : ℕ), u ≤ i →
      bumpSkipped pt t u i xs = xs := by
  intro xs
  induction xs with
  | nil => intro i _; rfl
  | cons x xs ih =>
    intro i hi
    have h1 : ¬(t ≤ i ∧ i < u ∧ x.ticket_type ∉ pt) := by
      intro hcon; omega
    simp only [bumpSkipped, if_neg h1]
    rw [ih (i + 1) (by omega)]

lemma bumpSkipped_inside (pt : List String) (t u : ℕ) :
    ∀ (xs : List Customer) (i : ℕ), t ≤ i → i + xs.length ≤ u →
      bumpSkipped pt t u i xs
        = xs.map (fun c => if c.ticket_type ∉ pt then c.update_jumps else c) := by
  intro xs
  induction xs with
  | nil => intro i _ _; rfl
  | cons x xs ih =>
    intro i hti hiu
    simp only [List.length_cons] at hiu
    simp only [bumpSkipped, List.map_cons]
    rw [ih (i + 1) (by omega) (by omega)]
    by_cases hx : x.ticket_type ∉ pt
    · rw [if_pos ⟨hti, by omega, hx⟩, if_pos hx]
    · rw [if_neg (by intro hcon; exact hx hcon.2.2), if_neg hx]

lemma removeFirstById_append_not (cid : ℕ) :
    ∀ (l1 l2 : List Customer), (∀ x ∈ l1, x.customer_id ≠ cid) →
      removeFirstById cid (l1 ++ l2) = l1 ++ removeFirstById cid l2 := by
  intro l1
  induction l1 with
  | nil => intro l2 _; rfl
  | cons x l1 ih =>
    intro l2 hx
    simp only [List.cons_append, removeFirstById,
      if_neg (hx x (by simp)), List.append_eq]
    rw [ih l2 (fun y hy => hx y (by simp [hy]))]

lemma removeFirstById_cons_self (c : Customer) (l : List Customer) :
    removeFirstById c.customer_id (c :: l) = l := by
  simp [removeFirstById]

lemma pyInsert_at_length (a : Customer) :
    ∀ (A R : List Customer), pyInsert A.length a (A ++ R) = A ++ a :: R := by
  intro A
  induction A with
  | nil => intro R; cases R <;> rfl
  | cons x A ih => intro R; simp only [List.cons_append, List.length_cons,
      pyInsert, List.append_eq, ih]

/-- Characterization of a successful pass scan: `findMove` starting at
offset `i` over `cs` returns the index of the first priority customer
with a positive, index-changing skip count, together with that count. -/
lemma findMove_some_spec (repo : Repo) (pt : List String)
    (pthr npthr : ℚ) (mjp jl : ℕ) (est : List (Customer × ℚ)) :
    ∀ (cs : List Customer) (i j num : ℕ),
      findMove repo pt pthr npthr mjp jl est i cs = some (j, num) →
      ∃ k, j = i + k ∧ k < cs.length ∧
        (cs.getD k custDflt).ticket_type ∈ pt ∧
        num = calculate_customer_new_position ((est.take (j + 1)).reverse)
          (cs.getD k custDflt) pthr npthr pt repo mjp jl ∧
        0 < num ∧ j - num ≠ j := by
  intro cs
  induction cs with
  | nil => intro i j num h; simp [findMove] at h
  | cons c cs ih =>
    intro i j num h
    simp only [findMove] at h
    split at h
    · split at h
      · next hcond =>
        simp only [Option.some.injEq, Prod.mk.injEq] at h
        obtain ⟨h1, h2⟩ := h
        subst h1; subst h2
        exact ⟨0, by omega, by simp, by simpa using (by assumption),
          by simpa using hcond.symm ▸ rfl, hcond.1, hcond.2⟩
      · obtain ⟨k, hk1, hk2, hk3, hk4, hk5, hk6⟩ := ih (i + 1) j num h
        exact ⟨k + 1, by omega, by simpa using hk2, by simpa using hk3,
          by simpa using hk4, hk5, hk6⟩
    · obtain ⟨k, hk1, hk2, hk3, hk4, hk5, hk6⟩ := ih (i + 1) j num h
      exact ⟨k + 1, by omega, by simpa using hk2, by simpa using hk3,
        by simpa using hk4, hk5, hk6⟩

lemma getD_reverse' {α} (l : List α) (i : ℕ) (d : α) (h : i < l.length) :
    l.reverse.getD i d = l.getD (l.length - 1 - i) d := by
  rw [List.getD_eq_getElem _ _ (by simpa using h), List.getElem_reverse,
    List.getD_eq_getElem _ _ (by omega)]

lemma getD_take' {α} (l : List α) (n i : ℕ) (d : α) (h : i < n)
    (h2 : i < l.length) :
    (l.take n).getD i d = l.getD i d := by
  have hb : i < (l.take n).length := by
    rw [List.length_take]; omega
  rw [List.getD_eq_getElem _ _ hb, List.getElem_take,
    List.getD_eq_getElem _ _ h2]

lemma getD_drop' {α} (l : List α) (n i : ℕ) (d : α) (h : n + i < l.length) :
    (l.drop n).getD i d = l.getD (n + i) d := by
  have hb : i < (l.drop n).length := by
    rw [List.length_drop]; omega
  rw [List.getD_eq_getElem _ _ hb, List.getElem_drop,
    List.getD_eq_getElem _ _ h]

/-- Equation for `calculate_customer_new_position` on a nonempty slice. -/
lemma calculate_cons (p : Customer × ℚ) (rest : List (Customer × ℚ))
    (cust : Customer) (pthr npthr : ℚ) (pt : List String) (repo : Repo)
    (mjp jl : ℕ) :
    calculate_customer_new_position (p :: rest) cust pthr npthr pt repo mjp jl
      = (calcSkips repo pt pthr npthr mjp jl cust p.2 0 rest).length := by
  obtain ⟨c0, w0⟩ := p
  rfl

/-- Master structure lemma for one pass: whenever a pass changes the
queue, the queue decomposes as `A ++ B ++ c :: C` where `c` is the
priority customer that moved, `B` is the nonempty block of non-priority
customers it skipped (each with `jumps` still below `jumps_limit` at the
check), and the pass result is `A ++ c :: B.map update_jumps ++ C`. -/
lemma onePass_spec (repo : Repo) (sp : ℕ) (pt : List String)
    (pthr npthr t : ℚ) (mjp jl : ℕ) (q q' : List Customer)
    (hsp : 0 < sp)
    (hnd : (q.map Customer.customer_id).Nodup)
    (h : onePass repo sp pt pthr npthr t mjp jl q = some q') :
    ∃ A B c C, q = A ++ (B ++ c :: C) ∧
      q' = A ++ c :: (B.map Customer.update_jumps ++ C) ∧
      c.ticket_type ∈ pt ∧ B ≠ [] ∧
      ∀ b ∈ B, b.ticket_type ∉ pt ∧ b.jumps < jl := by
  simp only [onePass] at h
  set est := estimate_total_times_in_line sp q repo t with hestdef
  cases hfm : findMove repo pt pthr npthr mjp jl est 0 q with
  | none => rw [hfm] at h; exact absurd h (by simp)
  | some pair =>
    obtain ⟨j, num⟩ := pair
    rw [hfm] at h
    simp only [Option.some.injEq] at h
    obtain ⟨k, hk0, hklt, hkpr, hknum, hnumpos, hne⟩ :=
      findMove_some_spec repo pt pthr npthr mjp jl est q 0 j num hfm
    have hkj : k = j := by omega
    subst hkj
    -- estimator bookkeeping
    have hws : List.replicate sp (0 : ℚ) ≠ [] := by
      simp only [ne_eq, List.replicate_eq_nil_iff]
      omega
    have hfst : est.map Prod.fst = q := estimateGo_map_fst repo t q _ hws
    have hestlen : est.length = q.length := by
      have := congrArg List.length hfst
      simpa using this
    have hjq : k < q.length := hklt
    have hjE : k < est.length := by omega
    -- identify positions of `q` with first components of `est`
    have hgetq : ∀ m, m < q.length →
        (est.getD m estDflt).1 = q.getD m custDflt := by
      intro m hm
      have hm' : m < est.length := by omega
      have h2 : m < (est.map Prod.fst).length := by simpa using hm'
      have h1 : q.getD m custDflt = (est.map Prod.fst).getD m custDflt := by
        rw [hfst]
      rw [h1, List.getD_eq_getElem _ _ h2, List.getElem_map,
        List.getD_eq_getElem _ _ hm']
    -- the reversed slice decomposes as head plus reversed prefix
    have hslice : (est.take (k + 1)).reverse
        = est.get ⟨k, hjE⟩ :: (est.take k).reverse := by
      rw [List.take_succ]
      have : est[k]? = some (est.get ⟨k, hjE⟩) := by
        rw [List.getElem?_eq_getElem hjE]
        simp [List.get_eq_getElem]
      rw [this]
      simp
    have hrestlen : ((est.take k).reverse).length = k := by
      simp [List.length_take]
      omega
    -- unfold the calculation into the skip walk
    rw [hslice, calculate_cons] at hknum
    set skips := calcSkips repo pt pthr npthr mjp jl (q.getD k custDflt)
      (est.get ⟨k, hjE⟩).2 0 ((est.take k).reverse) with hskipsdef
    obtain ⟨hsklen, hskfacts⟩ := calcSkips_facts repo pt pthr npthr mjp jl
      (q.getD k custDflt) ((est.take k).reverse) (est.get ⟨k, hjE⟩).2 0
    have hnumle : num ≤ k := by
      rw [hknum]
      calc skips.length ≤ ((est.take k).reverse).length := hsklen
      _ = k := hrestlen
    -- the skipped block of the queue
    have hskipq : ∀ i, i < num →
        (q.getD (k - num + i) custDflt).ticket_type ∉ pt ∧
        (q.getD (k - num + i) custDflt).jumps < jl := by
      intro i hi
      have hidx : num - 1 - i < skips.length := by omega
      obtain ⟨_, hnp, hjl⟩ := hskfacts (num - 1 - i) hidx
      have hmem : (((est.take k).reverse).getD (num - 1 - i) estDflt).1
          = q.getD (k - num + i) custDflt := by
        have hb : num - 1 - i < (est.take k).length := by
          rw [List.length_take]; omega
        rw [getD_reverse' _ _ _ hb]
        have hidxeq : (est.take k).length - 1 - (num - 1 - i) = k - num + i := by
          rw [List.length_take]; omega
        rw [hidxeq, getD_take' _ _ _ _ (by omega) (by omega)]
        exact hgetq (k - num + i) (by omega)
      rw [hmem] at hnp hjl
      exact ⟨hnp, hjl⟩
    -- decompose the queue around the move
    set target := k - num with htgt
    set A := q.take target with hA
    set B := (q.drop target).take num with hB
    set C := q.drop (k + 1) with hC
    set c := q.getD k custDflt with hc
    have hlenA : A.length = target := by
      rw [hA, List.length_take]
      omega
    have hlenB : B.length = num := by
      rw [hB, List.length_take, List.length_drop]
      omega
    have hq : q = A ++ (B ++ c :: C) := by
      have h1 : q.drop target = B ++ (q.drop target).drop num :=
        (List.take_append_drop num (q.drop target)).symm
      have h2 : (q.drop target).drop num = q.drop k := by
        rw [List.drop_drop]
        have h4 : target + num = k := by omega
        rw [h4]
      have h3 : q.drop k = c :: C := by
        rw [hC, hc, List.getD_eq_getElem _ _ hjq]
        exact List.drop_eq_getElem_cons hjq
      rw [← h3, ← h2, ← h1]
      exact (List.take_append_drop target q).symm
    -- the customers of B are exactly the skipped block
    have hBmem : ∀ b ∈ B, b.ticket_type ∉ pt ∧ b.jumps < jl := by
      intro b hb
      obtain ⟨i, hi, hbi⟩ := List.getElem_of_mem hb
      have hi' : i < num := by omega
      have hlt2 : target + i < q.length := by omega
      have hbq : b = q.getD (target + i) custDflt := by
        have hbD : B.getD i custDflt = b := by
          rw [List.getD_eq_getElem _ _ hi]; exact hbi
        rw [← hbD, hB,
          getD_take' _ _ _ _ hi' (by rw [List.length_drop]; omega),
          getD_drop' _ _ _ _ hlt2]
      rw [hbq]
      have := hskipq i hi'
      have harith : k - num + i = target + i := by omega
      rw [harith] at this
      exact this
    -- B is nonempty
    have hBne : B ≠ [] := by
      intro hcon
      rw [hcon] at hlenB
      simp at hlenB
      omega
    -- compute the bump sweep on the decomposition
    have hbump : bumpSkipped pt target k 0 q
        = A ++ (B.map Customer.update_jumps ++ (c :: C)) := by
      conv_lhs => rw [hq]
      rw [bumpSkipped_append, bumpSkipped_append]
      rw [bumpSkipped_of_le_target pt target k A 0 (by omega)]
      simp only [hlenA, hlenB, Nat.zero_add]
      have hBmap : bumpSkipped pt target k target B
          = B.map Customer.update_jumps := by
        rw [bumpSkipped_inside pt target k B target (le_refl _) (by omega)]
        exact List.map_congr_left (fun b hb => if_pos (hBmem b hb).1)
      rw [hBmap,
        bumpSkipped_of_ge_cur pt target k (c :: C) (target + num) (by omega)]
    -- identifier disjointness for the removal
    have hnd' : ((A.map Customer.customer_id)
        ++ ((B.map Customer.customer_id)
          ++ c.customer_id :: (C.map Customer.customer_id))).Nodup := by
      have h5 := hnd
      rw [hq] at h5
      simpa [List.map_append] using h5
    have hidsA : ∀ x ∈ A, x.customer_id ≠ c.customer_id := by
      intro x hx hcon
      exact List.disjoint_of_nodup_append hnd'
        (List.mem_map.mpr ⟨x, hx, hcon⟩) (by simp)
    have hidsB : ∀ x ∈ B.map Customer.update_jumps,
        x.customer_id ≠ c.customer_id := by
      intro x hx hcon
      obtain ⟨b, hb, hbx⟩ := List.mem_map.mp hx
      have hbc : b.customer_id = c.customer_id := by
        rw [← hbx] at hcon
        simpa [Customer.update_jumps] using hcon
      exact List.disjoint_of_nodup_append hnd'.of_append_right
        (List.mem_map.mpr ⟨b, hb, hbc⟩) (by simp)
    -- perform the removal and reinsertion
    have hrem : removeFirstById c.customer_id
        (A ++ (B.map Customer.update_jumps ++ (c :: C)))
        = A ++ (B.map Customer.update_jumps ++ C) := by
      rw [removeFirstById_append_not _ _ _ hidsA,
        removeFirstById_append_not _ _ _ hidsB,
        removeFirstById_cons_self]
    refine ⟨A, B, c, C, hq, ?_, by simpa [hc] using hkpr, hBne, hBmem⟩
    rw [← h]
    simp only [update_priority, hbump, hrem, ← hc]
    have : target = A.length := hlenA.symm
    rw [this, pyInsert_at_length]

-- ### Consequences of a pass, and the stabilization argument

lemma jumpsSlack_append (jl : ℕ) (l1 l2 : List Customer) :
    jumpsSlack jl (l1 ++ l2) = jumpsSlack jl l1 + jumpsSlack jl l2 := by
  simp [jumpsSlack]

lemma jumpsSlack_cons (jl : ℕ) (c : Customer) (l : List Customer) :
    jumpsSlack jl (c :: l) = (jl - c.jumps) + jumpsSlack jl l := by
  simp [jumpsSlack]

lemma jumpsSlack_map_bump (jl : ℕ) (B : List Customer)
    (hB : ∀ b ∈ B, b.jumps < jl) :
    jumpsSlack jl (B.map Customer.update_jumps) + B.length
      = jumpsSlack jl B := by
  induction B with
  | nil => rfl
  | cons b B ih =>
    have hb : b.jumps < jl := hB b (by simp)
    have hrest := ih (fun x hx => hB x (by simp [hx]))
    simp only [List.map_cons, jumpsSlack_cons, List.length_cons,
      Customer.update_jumps]
    omega

/-- Every changing pass strictly decreases the total skip-count headroom. -/
lemma onePass_slack_lt (repo : Repo) (sp : ℕ) (pt : List String)
    (pthr npthr t : ℚ) (mjp jl : ℕ) (q q' : List Customer)
    (hsp : 0 < sp) (hnd : (q.map Customer.customer_id).Nodup)
    (h : onePass repo sp pt pthr npthr t mjp jl q = some q') :
    jumpsSlack jl q' < jumpsSlack jl q := by
  obtain ⟨A, B, c, C, hq, hq', _, hBne, hBmem⟩ :=
    onePass_spec repo sp pt pthr npthr t mjp jl q q' hsp hnd h
  have hBlen : 0 < B.length := List.length_pos.mpr hBne
  have hBslack := jumpsSlack_map_bump jl B (fun b hb => (hBmem b hb).2)
  rw [hq, hq']
  simp only [jumpsSlack_append, jumpsSlack_cons]
  omega

/-- A pass permutes customer identifiers, so id-distinctness survives. -/
lemma onePass_nodup (repo : Repo) (sp : ℕ) (pt : List String)
    (pthr npthr t : ℚ) (mjp jl : ℕ) (q q' : List Customer)
    (hsp : 0 < sp) (hnd : (q.map Customer.customer_id).Nodup)
    (h : onePass repo sp pt pthr npthr t mjp jl q = some q') :
    (q'.map Customer.customer_id).Nodup := by
  obtain ⟨A, B, c, C, hq, hq', _, _, _⟩ :=
    onePass_spec repo sp pt pthr npthr t mjp jl q q' hsp hnd h
  have hids : (B.map Customer.update_jumps).map Customer.customer_id
      = B.map Customer.customer_id := by
    rw [List.map_map]
    rfl
  have hperm : List.Perm (q'.map Customer.customer_id)
      (q.map Customer.customer_id) := by
    rw [hq, hq']
    simp only [List.map_append, List.map_cons, hids]
    refine List.Perm.append_left _ ?_
    exact List.perm_middle.symm
  exact hperm.symm.nodup hnd

/-- A pass only ever increases `jumps`, preserving every other field. -/
lemma onePass_mono (repo : Repo) (sp : ℕ) (pt : List String)
    (pthr npthr t : ℚ) (mjp jl : ℕ) (q q' : List Customer)
    (hsp : 0 < sp) (hnd : (q.map Customer.customer_id).Nodup)
    (h : onePass repo sp pt pthr npthr t mjp jl q = some q') :
    ∀ x ∈ q, ∃ y ∈ q', y.customer_id = x.customer_id ∧
      y.ticket_type = x.ticket_type ∧ y.arrival_time = x.arrival_time ∧
      x.jumps ≤ y.jumps := by
  obtain ⟨A, B, c, C, hq, hq', _, _, _⟩ :=
    onePass_spec repo sp pt pthr npthr t mjp jl q q' hsp hnd h
  intro x hx
  rw [hq] at hx
  simp only [List.mem_append, List.mem_cons] at hx
  rcases hx with hx | hx | hx | hx
  · exact ⟨x, by simp [hq', hx], rfl, rfl, rfl, le_refl _⟩
  · refine ⟨x.update_jumps, ?_, rfl, rfl, rfl, by simp [Customer.update_jumps]⟩
    rw [hq']
    simp only [List.mem_append, List.mem_cons]
    exact Or.inr (Or.inr (Or.inl (List.mem_map.mpr ⟨x, hx, rfl⟩)))
  · subst hx
    exact ⟨x, by simp [hq'], rfl, rfl, rfl, le_refl _⟩
  · exact ⟨x, by simp [hq', hx], rfl, rfl, rfl, le_refl _⟩

/-- A pass keeps every `jumps` at or below the ceiling, because the only
customers it increments were checked to be strictly below it. -/
lemma onePass_ceiling (repo : Repo) (sp : ℕ) (pt : List String)
    (pthr npthr t : ℚ) (mjp jl : ℕ) (q q' : List Customer)
    (hsp : 0 < sp) (hnd : (q.map Customer.customer_id).Nodup)
    (h : onePass repo sp pt pthr npthr t mjp jl q = some q')
    (hall : ∀ x ∈ q, x.jumps ≤ jl) :
    ∀ y ∈ q', y.jumps ≤ jl := by
  obtain ⟨A, B, c, C, hq, hq', _, _, hBmem⟩ :=
    onePass_spec repo sp pt pthr npthr t mjp jl q q' hsp hnd h
  intro y hy
  rw [hq'] at hy
  simp only [List.mem_append, List.mem_cons] at hy
  rcases hy with hy | hy | hy | hy
  · exact hall y (by simp [hq, hy])
  · subst hy
    exact hall y (by simp [hq])
  · obtain ⟨b, hb, hby⟩ := List.mem_map.mp hy
    have := (hBmem b hb).2
    rw [← hby]
    simp only [Customer.update_jumps]
    omega
  · exact hall y (by simp [hq, hy])

/-- A pass never reorders priority customers relative to one another: the
priority-tagged subsequence of the queue is fixed. -/
lemma onePass_filter (repo : Repo) (sp : ℕ) (pt : List String)
    (pthr npthr t : ℚ) (mjp jl : ℕ) (q q' : List Customer)
    (hsp : 0 < sp) (hnd : (q.map Customer.customer_id).Nodup)
    (h : onePass repo sp pt pthr npthr t mjp jl q = some q') :
    q'.filter (fun c => decide (c.ticket_type ∈ pt))
      = q.filter (fun c => decide (c.ticket_type ∈ pt)) := by
  obtain ⟨A, B, c, C, hq, hq', hcpt, _, hBmem⟩ :=
    onePass_spec repo sp pt pthr npthr t mjp jl q q' hsp hnd h
  have hBfil : B.filter (fun c => decide (c.ticket_type ∈ pt)) = [] :=
    List.filter_eq_nil_iff.mpr (fun b hb => by simp [(hBmem b hb).1])
  have hBmfil : (B.map Customer.update_jumps).filter
      (fun c => decide (c.ticket_type ∈ pt)) = [] := by
    refine List.filter_eq_nil_iff.mpr (fun b hb => ?_)
    obtain ⟨b0, hb0, hbb⟩ := List.mem_map.mp hb
    rw [← hbb]
    simp [Customer.update_jumps, (hBmem b0 hb0).1]
  rw [hq, hq']
  simp [List.filter_append, hBfil, hBmfil, hcpt]

/-- A stalled queue is a fixed point of the loop at any budget. -/
lemma optLoop_of_none (repo : Repo) (sp : ℕ) (pt : List String)
    (pthr npthr t : ℚ) (mjp jl : ℕ) (q : List Customer)
    (h : onePass repo sp pt pthr npthr t mjp jl q = none) (n : ℕ) :
    optLoop repo sp pt pthr npthr t mjp jl n q = q := by
  cases n with
  | zero => rfl
  | succ n => simp [optLoop, h]

/-- With budget exceeding the skip-count headroom, the loop reaches a
queue on which a pass makes no change. -/
lemma optLoop_reaches_fix (repo : Repo) (sp : ℕ) (pt : List String)
    (pthr npthr t : ℚ) (mjp jl : ℕ) (hsp : 0 < sp) :
    ∀ (n : ℕ) (q : List Customer), (q.map Customer.customer_id).Nodup →
      jumpsSlack jl q < n →
      onePass repo sp pt pthr npthr t mjp jl
        (optLoop repo sp pt pthr npthr t mjp jl n q) = none := by
  intro n
  induction n with
  | zero => intro q _ hlt; omega
  | succ n ih =>
    intro q hnd hlt
    cases hop : onePass repo sp pt pthr npthr t mjp jl q with
    | none => simpa [optLoop, hop] using hop
    | some q' =>
      have hs := onePass_slack_lt repo sp pt pthr npthr t mjp jl q q' hsp hnd hop
      have hnd' := onePass_nodup repo sp pt pthr npthr t mjp jl q q' hsp hnd hop
      simpa [optLoop, hop] using ih q' hnd' (by omega)

/-- Extra loop budget beyond stabilization never changes the result. -/
lemma optLoop_add (repo : Repo) (sp : ℕ) (pt : List String)
    (pthr npthr t : ℚ) (mjp jl : ℕ) (hsp : 0 < sp) (extra : ℕ) :
    ∀ (n : ℕ) (q : List Customer), (q.map Customer.customer_id).Nodup →
      jumpsSlack jl q < n →
      optLoop repo sp pt pthr npthr t mjp jl (n + extra) q
        = optLoop repo sp pt pthr npthr t mjp jl n q := by
  intro n
  induction n with
  | zero => intro q _ hlt; omega
  | succ n ih =>
    intro q hnd hlt
    cases hop : onePass repo sp pt pthr npthr t mjp jl q with
    | none =>
      have h1 : n + 1 + extra = (n + extra) + 1 := by omega
      rw [h1]
      simp [optLoop, hop]
    | some q' =>
      have hs := onePass_slack_lt repo sp pt pthr npthr t mjp jl q q' hsp hnd hop
      have hnd' := onePass_nodup repo sp pt pthr npthr t mjp jl q q' hsp hnd hop
      have h1 : n + 1 + extra = (n + extra) + 1 := by omega
      rw [h1]
      simp only [optLoop, hop]
      exact ih q' hnd' (by omega)

/-- Loop invariant for C4: the ceiling and per-customer monotonicity of
`jumps` survive any number of passes. -/
lemma optLoop_jumps_inv (repo : Repo) (sp : ℕ) (pt : List String)
    (pthr npthr t : ℚ) (mjp jl : ℕ) (hsp : 0 < sp) :
    ∀ (n : ℕ) (q : List Customer), (q.map Customer.customer_id).Nodup →
      (∀ c ∈ q, c.jumps ≤ jl) →
      (∀ c' ∈ optLoop repo sp pt pthr npthr t mjp jl n q, c'.jumps ≤ jl) ∧
      (∀ c ∈ q, ∃ c' ∈ optLoop repo sp pt pthr npthr t mjp jl n q,
        c'.customer_id = c.customer_id ∧ c'.ticket_type = c.ticket_type ∧
        c'.arrival_time = c.arrival_time ∧ c.jumps ≤ c'.jumps) := by
  intro n
  induction n with
  | zero =>
    intro q _ hall
    exact ⟨hall, fun c hc => ⟨c, hc, rfl, rfl, rfl, le_refl _⟩⟩
  | succ n ih =>
    intro q hnd hall
    cases hop : onePass repo sp pt pthr npthr t mjp jl q with
    | none =>
      simp only [optLoop, hop]
      exact ⟨hall, fun c hc => ⟨c, hc, rfl, rfl, rfl, le_refl _⟩⟩
    | some q' =>
      have hnd' := onePass_nodup repo sp pt pthr npthr t mjp jl q q' hsp hnd hop
      have hall' := onePass_ceiling repo sp pt pthr npthr t mjp jl q q' hsp hnd hop hall
      have hmono := onePass_mono repo sp pt pthr npthr t mjp jl q q' hsp hnd hop
      obtain ⟨ihc, ihm⟩ := ih q' hnd' hall'
      refine ⟨by simpa [optLoop, hop] using ihc, ?_⟩
      intro c hc
      obtain ⟨y, hy, hid, htt, har, hj⟩ := hmono c hc
      obtain ⟨z, hz, hid', htt', har', hj'⟩ := ihm y hy
      refine ⟨z, by simpa [optLoop, hop] using hz, ?_, ?_, ?_, ?_⟩
      · rw [hid', hid]
      · rw [htt', htt]
      · rw [har', har]
      · omega

/-- C4: across a full `update_queue_improved` call no customer's `jumps`
decreases, and — provided every customer started at or below the
`jumps_limit` ceiling — no customer ends above it.  The queue is assumed
to satisfy the data-model invariant of pairwise-distinct customer ids and
a positive number of service points (the `service_points = 0` /
non-empty-queue case is a configuration error that raises in Python). -/
theorem C4_jumps_monotone_and_capped (repo : Repo) (sp : ℕ)
    (pt : List String) (pthr npthr t : ℚ) (mjp jl : ℕ)
    (q : List Customer) (hsp : 0 < sp)
    (hnd : (q.map Customer.customer_id).Nodup)
    (hall : ∀ c ∈ q, c.jumps ≤ jl) :
    (∀ c' ∈ update_queue_improved q repo sp pt pthr npthr t mjp jl,
      c'.jumps ≤ jl) ∧
    (∀ c ∈ q, ∃ c' ∈ update_queue_improved q repo sp pt pthr npthr t mjp jl,
      c'.customer_id = c.customer_id ∧ c'.ticket_type = c.ticket_type ∧
      c'.arrival_time = c.arrival_time ∧ c.jumps ≤ c'.jumps) :=
  optLoop_jumps_inv repo sp pt pthr npthr t mjp jl hsp
    (jumpsSlack jl q + 1) q hnd hall

/-- Witness for C4 on a two-customer queue. -/
theorem C4_jumps_monotone_and_capped_witness :
    (∀ c' ∈ update_queue_improved [⟨0, 0, "NP", 0⟩, ⟨1, 0, "P", 0⟩]
        (fun s => if s = "P" then 3 else 4) 1 ["P"] 10 20 0 1 3,
      c'.jumps ≤ 3) ∧
    (∀ c ∈ ([⟨0, 0, "NP", 0⟩, ⟨1, 0, "P", 0⟩] : List Customer),
      ∃ c' ∈ update_queue_improved [⟨0, 0, "NP", 0⟩, ⟨1, 0, "P", 0⟩]
        (fun s => if s = "P" then 3 else 4) 1 ["P"] 10 20 0 1 3,
      c'.customer_id = c.customer_id ∧ c'.ticket_type = c.ticket_type ∧
      c'.arrival_time = c.arrival_time ∧ c.jumps ≤ c'.jumps) :=
  C4_jumps_monotone_and_capped (fun s => if s = "P" then 3 else 4) 1 ["P"]
    10 20 0 1 3 [⟨0, 0, "NP", 0⟩, ⟨1, 0, "P", 0⟩] (by decide) (by decide)
    (by decide)

/-- Loop invariant for C6: the priority subsequence is fixed by passes. -/
lemma optLoop_filter_inv (repo : Repo) (sp : ℕ) (pt : List String)
    (pthr npthr t : ℚ) (mjp jl : ℕ) (hsp : 0 < sp) :
    ∀ (n : ℕ) (q : List Customer), (q.map Customer.customer_id).Nodup →
      (optLoop repo sp pt pthr npthr t mjp jl n q).filter
          (fun c => decide (c.ticket_type ∈ pt))
        = q.filter (fun c => decide (c.ticket_type ∈ pt)) := by
  intro n
  induction n with
  | zero => intro q _; rfl
  | succ n ih =>
    intro q hnd
    cases hop : onePass repo sp pt pthr npthr t mjp jl q with
    | none => simp [optLoop, hop]
    | some q' =>
      have hnd' := onePass_nodup repo sp pt pthr npthr t mjp jl q q' hsp hnd hop
      have hfil := onePass_filter repo sp pt pthr npthr t mjp jl q q' hsp hnd hop
      simp only [optLoop, hop]
      rw [ih q' hnd', hfil]

/-- C6: `update_queue_improved` never reorders one priority customer
ahead of another that was already ahead of it — the priority-tagged
subsequence of the queue (customers in order, fields included) is exactly
preserved by the whole call.  Assumes the data-model invariant of
pairwise-distinct ids and a positive service-point count. -/
theorem C6_priority_pairs_never_cross (repo : Repo) (sp : ℕ)
    (pt : List String) (pthr npthr t : ℚ) (mjp jl : ℕ)
    (q : List Customer) (hsp : 0 < sp)
    (hnd : (q.map Customer.customer_id).Nodup) :
    (update_queue_improved q repo sp pt pthr npthr t mjp jl).filter
        (fun c => decide (c.ticket_type ∈ pt))
      = q.filter (fun c => decide (c.ticket_type ∈ pt)) :=
  optLoop_filter_inv repo sp pt pthr npthr t mjp jl hsp
    (jumpsSlack jl q + 1) q hnd

/-- Witness for C6 on a queue holding two priority customers. -/
theorem C6_priority_pairs_never_cross_witness :
    (update_queue_improved
        [⟨0, 0, "NP", 0⟩, ⟨1, 0, "P", 0⟩, ⟨2, 0, "P", 0⟩]
        (fun s => if s = "P" then 3 else 4) 1 ["P"] 10 20 0 1 3).filter
        (fun c => decide (c.ticket_type ∈ ["P"]))
      = ([⟨0, 0, "NP", 0⟩, ⟨1, 0, "P", 0⟩, ⟨2, 0, "P", 0⟩] : List Customer).filter
        (fun c => decide (c.ticket_type ∈ ["P"])) :=
  C6_priority_pairs_never_cross (fun s => if s = "P" then 3 else 4) 1 ["P"]
    10 20 0 1 3 [⟨0, 0, "NP", 0⟩, ⟨1, 0, "P", 0⟩, ⟨2, 0, "P", 0⟩]
    (by decide) (by decide)

/-- C7: the stabilization loop of `update_queue_improved` terminates.
The pass budget `jumpsSlack + 1` provably suffices: the returned queue is
a fixed point (one further pass makes no move), and granting the loop any
extra budget cannot change the result — i.e. the source's `while True`
loop exits after finitely many passes, at the first pass with no move.
Assumes pairwise-distinct ids and a positive service-point count. -/
theorem C7_stabilization_terminates (repo : Repo) (sp : ℕ)
    (pt : List String) (pthr npthr t : ℚ) (mjp jl : ℕ)
    (q : List Customer) (hsp : 0 < sp)
    (hnd : (q.map Customer.customer_id).Nodup) :
    onePass repo sp pt pthr npthr t mjp jl
      (update_queue_improved q repo sp pt pthr npthr t mjp jl) = none ∧
    ∀ extra : ℕ,
      optLoop repo sp pt pthr npthr t mjp jl (jumpsSlack jl q + 1 + extra) q
        = update_queue_improved q repo sp pt pthr npthr t mjp jl :=
  ⟨optLoop_reaches_fix repo sp pt pthr npthr t mjp jl hsp
      (jumpsSlack jl q + 1) q hnd (by omega),
   fun extra => optLoop_add repo sp pt pthr npthr t mjp jl hsp extra
      (jumpsSlack jl q + 1) q hnd (by omega)⟩

/-- Witness for C7 on a two-customer queue. -/
theorem C7_stabilization_terminates_witness :
    onePass (fun s => if s = "P" then 3 else 4) 1 ["P"] 10 20 0 1 3
      (update_queue_improved [⟨0, 0, "NP", 0⟩, ⟨1, 0, "P", 0⟩]
        (fun s => if s = "P" then 3 else 4) 1 ["P"] 10 20 0 1 3) = none ∧
    ∀ extra : ℕ,
      optLoop (fun s => if s = "P" then 3 else 4) 1 ["P"] 10 20 0 1 3
          (jumpsSlack 3 [⟨0, 0, "NP", 0⟩, ⟨1, 0, "P", 0⟩] + 1 + extra)
          [⟨0, 0, "NP", 0⟩, ⟨1, 0, "P", 0⟩]
        = update_queue_improved [⟨0, 0, "NP", 0⟩, ⟨1, 0, "P", 0⟩]
          (fun s => if s = "P" then 3 else 4) 1 ["P"] 10 20 0 1 3 :=
  C7_stabilization_terminates (fun s => if s = "P" then 3 else 4) 1 ["P"]
    10 20 0 1 3 [⟨0, 0, "NP", 0⟩, ⟨1, 0, "P", 0⟩] (by decide) (by decide)

/-- C8: `update_queue_improved` is idempotent — a second call with
identical arguments and no intervening mutation makes no move, leaving
queue order and every customer's `jumps` unchanged.  Assumes
pairwise-distinct ids and a positive service-point count. -/
theorem C8_optimizer_idempotent (repo : Repo) (sp : ℕ)
    (pt : List String) (pthr npthr t : ℚ) (mjp jl : ℕ)
    (q : List Customer) (hsp : 0 < sp)
    (hnd : (q.map Customer.customer_id).Nodup) :
    update_queue_improved
        (update_queue_improved q repo sp pt pthr npthr t mjp jl)
        repo sp pt pthr npthr t mjp jl
      = update_queue_improved q repo sp pt pthr npthr t mjp jl := by
  have hfix : onePass repo sp pt pthr npthr t mjp jl
      (update_queue_improved q repo sp pt pthr npthr t mjp jl) = none :=
    optLoop_reaches_fix repo sp pt pthr npthr t mjp jl hsp
      (jumpsSlack jl q + 1) q hnd (by omega)
  exact optLoop_of_none repo sp pt pthr npthr t mjp jl _ hfix _

/-- Witness for C8 on a two-customer queue. -/
theorem C8_optimizer_idempotent_witness :
    update_queue_improved
        (update_queue_improved [⟨0, 0, "NP", 0⟩, ⟨1, 0, "P", 0⟩]
          (fun s => if s = "P" then 3 else 4) 1 ["P"] 10 20 0 1 3)
        (fun s => if s = "P" then 3 else 4) 1 ["P"] 10 20 0 1 3
      = update_queue_improved [⟨0, 0, "NP", 0⟩, ⟨1, 0, "P", 0⟩]
        (fun s => if s = "P" then 3 else 4) 1 ["P"] 10 20 0 1 3 :=
  C8_optimizer_idempotent (fun s => if s = "P" then 3 else 4) 1 ["P"]
    10 20 0 1 3 [⟨0, 0, "NP", 0⟩, ⟨1, 0, "P", 0⟩] (by decide) (by decide)

/-- C2 (refutation): the priority-threshold gate of the pass scan is
commented out in the source (`manipulate_queue.py`, line 226), so a
priority customer whose projected total wait is at or below
`p_threshold` is still repositioned.  Concretely, with one window,
service times `P ↦ 3`, `NP ↦ 4`, thresholds `p_threshold = 10`,
`non_p_threshold = 20`, and queue `[NP#0, P#1]` (all arrivals at the
reference time), the priority customer's projected wait is `4 ≤ 10`, yet
the call moves it to the front and bumps the skipped customer's jumps. -/
theorem C2_below_threshold_priority_still_moved :
    ((estimate_total_times_in_line 1 [⟨0, 0, "NP", 0⟩, ⟨1, 0, "P", 0⟩]
        (fun s => if s = "P" then 3 else 4) 0).getD 1 estDflt).2 ≤ 10 ∧
    update_queue_improved [⟨0, 0, "NP", 0⟩, ⟨1, 0, "P", 0⟩]
        (fun s => if s = "P" then 3 else 4) 1 ["P"] 10 20 0 1 3
      = [⟨1, 0, "P", 0⟩, ⟨0, 0, "NP", 1⟩] := by
  constructor
  · norm_num [estimate_total_times_in_line, estimateGo, pyMin, pyMinAux,
      replaceFirst, get_estimated_service_time, List.getD,
      (show ¬ (("NP" : String) = "P") from by decide)]
  · norm_num [update_queue_improved, jumpsSlack, optLoop, onePass,
      estimate_total_times_in_line, estimateGo, pyMin, pyMinAux, replaceFirst,
      findMove, calculate_customer_new_position, calcSkips,
      get_estimated_service_time, bumpSkipped, update_priority,
      removeFirstById, pyInsert, custDflt, Customer.update_jumps,
      (show ¬ (("NP" : String) = "P") from by decide),
      List.getD, List.getElem_cons_succ, List.getElem_cons_zero]
    decide

-- ## The simulator: `src/services/clinic_queue_simulation.py`

/-- Python exceptions surfaced by the embedded simulator code. -/
inductive PyError where
  /-- `TypeError`: a function call omitted required positional arguments. -/
  | typeErrorMissingArgs
deriving DecidableEq, Repr

/-- Embedding of `src/entities/service_window.py` (`ServiceWindow`). -/
structure ServiceWindow where
  window_id : ℕ
  is_available : Bool
  current_customer : Option Customer
  service_end_time : Option ℚ
deriving DecidableEq, Repr

/-- `ServiceWindow.start_service`: mark busy and store the customer and
completion time. -/
def ServiceWindow.start_service (w : ServiceWindow) (customer : Customer)
    (service_end_time : ℚ) : ServiceWindow :=
  { w with
    is_available := false
    current_customer := some customer
    service_end_time := some service_end_time }

/-- `ServiceWindow.finish_service`: `None` (window untouched) when no
customer is held; otherwise release the customer and free the window. -/
def ServiceWindow.finish_service (w : ServiceWindow) :
    Option Customer × ServiceWindow :=
  match w.current_customer with
  | none => (none, w)
  | some c =>
    (some c, { w with
      is_available := true
      current_customer := none
      service_end_time := none })

/-- `ServiceWindow.is_service_complete`: false without an end time,
otherwise `current_time >= service_end_time`. -/
def ServiceWindow.is_service_complete (w : ServiceWindow)
    (current_time : ℚ) : Bool :=
  match w.service_end_time with
  | none => false
  | some e => decide (e ≤ current_time)

/-- Embedding of `CustomerRecord` in
`src/entities/clinic_simulation_state.py` (the derived duration
properties are pure functions of these fields and are not needed by the
claims). -/
structure CustomerRecord where
  customer_id : ℕ
  ticket_type : String
  arrival_time : ℚ
  service_start_time : Option ℚ
  service_end_time : Option ℚ
  departure_time : Option ℚ
  was_served : Bool
  left_at_closing : Bool
deriving DecidableEq, Repr

/-- Embedding of `ClinicSimulationState` (the aggregate-metric fields
computed only by `calculate_final_metrics`/`print_summary` and the
start/end timestamps are bookkeeping not referenced by the claims). -/
structure ClinicSimulationState where
  customer_records : List CustomerRecord
  total_customers_arrived : ℕ
  total_customers_served : ℕ
  total_customers_left_at_closing : ℕ
deriving DecidableEq, Repr

/-- Update the first element satisfying `p` with `f`, reporting whether a
match was found; embeds the source's `for record in ...: if match: ...;
break` update loops. -/
def updFirst {α} (p : α → Bool) (f : α → α) : List α → List α × Bool
  | [] => ([], false)
  | x :: xs =>
    if p x then (f x :: xs, true)
    else
      let r := updFirst p f xs
      (x :: r.1, r.2)

/-- `ClinicSimulationState.add_customer_arrival`: append a fresh record
and count the arrival. -/
def ClinicSimulationState.add_customer_arrival (st : ClinicSimulationState)
    (c : Customer) : ClinicSimulationState :=
  { st with
    customer_records := st.customer_records
      ++ [⟨c.customer_id, c.ticket_type, c.arrival_time, none, none, none,
           false, false⟩]
    total_customers_arrived := st.total_customers_arrived + 1 }

/-- `ClinicSimulationState.record_service_start`: stamp the first record
with a matching id. -/
def ClinicSimulationState.record_service_start (st : ClinicSimulationState)
    (c : Customer) (service_start_time : ℚ) : ClinicSimulationState :=
  { st with
    customer_records := (updFirst
      (fun r0 => decide (r0.customer_id = c.customer_id))
      (fun r0 => { r0 with service_start_time := some service_start_time })
      st.customer_records).1 }

/-- `ClinicSimulationState.record_service_completion`: on the first record
with a matching id, set end/departure times, flag `was_served`, and count
the service (the counter moves only when a record matched, exactly as the
source increments inside the loop before `break`). -/
def ClinicSimulationState.record_service_completion
    (st : ClinicSimulationState) (c : Customer) (service_end_time : ℚ) :
    ClinicSimulationState :=
  let r := updFirst (fun r0 => decide (r0.customer_id = c.customer_id))
    (fun r0 => { r0 with
      service_end_time := some service_end_time
      departure_time := some service_end_time
      was_served := true })
    st.customer_records
  { st with
    customer_records := r.1
    total_customers_served :=
      st.total_customers_served + (if r.2 then 1 else 0) }

/-- `ClinicSimulationState.record_customer_left_at_closing`: on the first
record with a matching id, set the departure time, flag
`left_at_closing`, and count it. -/
def ClinicSimulationState.record_customer_left_at_closing
    (st : ClinicSimulationState) (c : Customer) (closing_time : ℚ) :
    ClinicSimulationState :=
  let r := updFirst (fun r0 => decide (r0.customer_id = c.customer_id))
    (fun r0 => { r0 with
      departure_time := some closing_time
      left_at_closing := true })
    st.customer_records
  { st with
    customer_records := r.1
    total_customers_left_at_closing :=
      st.total_customers_left_at_closing + (if r.2 then 1 else 0) }

/-- Embedding of `ClinicQueueSimulator`'s state (`clinic_queue_simulation.py`,
lines 23-73); the queue is the `PriorityQueueLeo` deque as a list, front
first. -/
structure ClinicQueueSimulator where
  num_service_windows : ℕ
  opening_hour : ℕ
  closing_hour : ℕ
  priority_tickets : List String
  p_threshold_minutes : ℚ
  non_p_threshold_minutes : ℚ
  service_times_repo : Repo
  service_windows : List ServiceWindow
  queue : List Customer
  simulation_state : ClinicSimulationState
  pending_arrivals : List Customer
  current_time : ℚ

/-- `setup_service_windows`: one idle window per service point. -/
def ClinicQueueSimulator.setup_service_windows (sim : ClinicQueueSimulator) :
    ClinicQueueSimulator :=
  { sim with service_windows :=
      (List.range sim.num_service_windows).map (fun i => ⟨i, true, none, none⟩) }

/-- Sequential renumbering of admitted arrivals (`load_arrivals`' `ix`
counter): customer ids `0, 1, 2, ...` in admitted order, jumps `0`. -/
def numberArrivals : ℕ → List (ℚ × String) → List Customer
  | _, [] => []
  | ix, a :: rest => ⟨ix, a.1, a.2, 0⟩ :: numberArrivals (ix + 1) rest

/-- Embedding of `ClinicQueueSimulator.load_arrivals`
(`clinic_queue_simulation.py`, lines 81-112): the arrival feed is a list
of `(timestamp, ticket-type)` pairs; rows are FILTERED to the operating
hours (`opening_hour <= hour < closing_hour`, with `hour = ⌊t/60⌋` as
`datetime.hour` for a time `t` in minutes from midnight) and then SORTED
ascending by timestamp before `Customer` objects are numbered and
queued as pending.  The sort is embedded as a stable `mergeSort`; pandas'
default `sort_values` quicksort agrees with it on every feed whose
timestamps are pairwise distinct (the tie order of an unstable quicksort
on equal keys is unspecified, so the amended C10 theorem assumes strictly
increasing timestamps). -/
def ClinicQueueSimulator.load_arrivals (sim : ClinicQueueSimulator)
    (arrivals : List (ℚ × String)) : ClinicQueueSimulator :=
  let filtered := arrivals.filter (fun a =>
    decide ((sim.opening_hour : ℤ) ≤ ⌊a.1 / 60⌋)
      && decide (⌊a.1 / 60⌋ < (sim.closing_hour : ℤ)))
  let sorted := filtered.mergeSort (fun a b => decide (a.1 ≤ b.1))
  { sim with pending_arrivals := numberArrivals 0 sorted }

/-- Call-site record for the `update_queue_improved(...)` invocation in
`ClinicQueueSimulator.optimize_queue` (lines 179-188): the source passes
`queue`, `service_times_repo`, `service_points`, `priority_tickets`,
`p_threshold`, `non_p_threshold`, `current_time` and `debug` by keyword,
and OMITS the required parameters `max_jumps_p` and `jumps_limit`
(`Option` fields, `none` when absent at the call site). -/
structure UpdateQueueImprovedCall where
  queue : List Customer
  service_times_repo : Repo
  service_points : ℕ
  priority_tickets : List String
  p_threshold : ℚ
  non_p_threshold : ℚ
  current_time : ℚ
  max_jumps_p : Option ℕ
  jumps_limit : Option ℕ

/-- Python's call semantics for `update_queue_improved`: the function has
no defaults for `max_jumps_p` and `jumps_limit`, so a call that omits
either raises `TypeError: update_queue_improved() missing ... required
positional arguments` before the function body runs. -/
def callUpdateQueueImproved (kw : UpdateQueueImprovedCall) :
    Except PyError (List Customer) :=
  match kw.max_jumps_p, kw.jumps_limit with
  | some mjp, some jl =>
    .ok (update_queue_improved kw.queue kw.service_times_repo
      kw.service_points kw.priority_tickets kw.p_threshold
      kw.non_p_threshold kw.current_time mjp jl)
  | _, _ => .error .typeErrorMissingArgs

/-- Embedding of `ClinicQueueSimulator.optimize_queue`
(`clinic_queue_simulation.py`, lines 162-200): with more than one queued
customer it invokes `update_queue_improved` through the keyword call
above — which omits `max_jumps_p` and `jumps_limit`; with one or zero
customers it does nothing. -/
def ClinicQueueSimulator.optimize_queue (sim : ClinicQueueSimulator) :
    Except PyError ClinicQueueSimulator :=
  if 1 < sim.queue.length then
    match callUpdateQueueImproved
        { queue := sim.queue
          service_times_repo := sim.service_times_repo
          service_points := sim.num_service_windows
          priority_tickets := sim.priority_tickets
          p_threshold := sim.p_threshold_minutes
          non_p_threshold := sim.non_p_threshold_minutes
          current_time := sim.current_time
          max_jumps_p := none
          jumps_limit := none } with
    | .error e => .error e
    | .ok q' => .ok { sim with queue := q' }
  else .ok sim

/-- The simulator configuration produced by `ClinicQueueSimulator.__init__`
with default arguments: 3 windows, hours 6-18, priority set `{"P"}`,
thresholds 10/20 minutes, default service-time table
`P ↦ 3.32, NP ↦ 4.15`. -/
def simDefault : ClinicQueueSimulator :=
  { num_service_windows := 3
    opening_hour := 6
    closing_hour := 18
    priority_tickets := ["P"]
    p_threshold_minutes := 10
    non_p_threshold_minutes := 20
    service_times_repo := fun s => if s = "P" then 332/100 else 415/100
    service_windows := []
    queue := []
    simulation_state := ⟨[], 0, 0, 0⟩
    pending_arrivals := []
    current_time := 0 }

/-- C1 (refutation of normal completion): whenever the optimization step
fires with more than one queued customer, the `update_queue_improved`
call in `optimize_queue` raises `TypeError` — the simulator never
supplies the required `max_jumps_p` and `jumps_limit` arguments (it has
no such configuration at all), so the invocation cannot complete
normally. -/
theorem C1_optimize_queue_missing_required_args
    (sim : ClinicQueueSimulator) (h : 1 < sim.queue.length) :
    sim.optimize_queue = Except.error PyError.typeErrorMissingArgs := by
  simp [ClinicQueueSimulator.optimize_queue, callUpdateQueueImproved, h]

/-- Witness for C1: a default simulator with two queued customers. -/
theorem C1_optimize_queue_missing_required_args_witness :
    ({ simDefault with
        queue := [⟨0, 360, "NP", 0⟩, ⟨1, 361, "P", 0⟩] }
      : ClinicQueueSimulator).optimize_queue
      = Except.error PyError.typeErrorMissingArgs :=
  C1_optimize_queue_missing_required_args _ (by decide)

-- ### C10: the arrival feed is filtered and sorted, not consumed as given

/-- C10 (counterexample): `load_arrivals` does filter.  Feeding the
default simulator a single arrival at 05:00 (timestamp 300 minutes, hour
5, before the 6:00 opening) admits nothing, so the admitted sequence is
not the input sequence. -/
theorem C10_counterexample_out_of_hours_arrival_dropped :
    ¬ ((simDefault.load_arrivals [(300, "NP")]).pending_arrivals.map
        (fun c => (c.arrival_time, c.ticket_type)) = [((300 : ℚ), "NP")]) := by
  have hfloor : ⌊(300 : ℚ) / 60⌋ = 5 := by norm_num
  simp [ClinicQueueSimulator.load_arrivals, simDefault, hfloor,
    numberArrivals]

/-- C10 (amended): `load_arrivals` filters the feed to operating hours
(`opening_hour ≤ ⌊t/60⌋ < closing_hour`) and sorts it ascending by
timestamp; hence only when the input is already so filtered and sorted
(strictly increasing timestamps, so that pandas' unstable quicksort is
determinate) are the admitted customers exactly the input sequence in
input order, renumbered `0, 1, 2, ...`. -/
theorem C10_admits_input_only_if_filtered_sorted
    (sim : ClinicQueueSimulator) (arrivals : List (ℚ × String))
    (hin : ∀ a ∈ arrivals, (sim.opening_hour : ℤ) ≤ ⌊a.1 / 60⌋ ∧
      ⌊a.1 / 60⌋ < (sim.closing_hour : ℤ))
    (hsort : arrivals.Pairwise (fun a b => a.1 < b.1)) :
    (sim.load_arrivals arrivals).pending_arrivals
      = numberArrivals 0 arrivals := by
  have hfil : arrivals.filter (fun a =>
      decide ((sim.opening_hour : ℤ) ≤ ⌊a.1 / 60⌋)
        && decide (⌊a.1 / 60⌋ < (sim.closing_hour : ℤ))) = arrivals := by
    rw [List.filter_eq_self]
    intro a ha
    obtain ⟨h1, h2⟩ := hin a ha
    simp [h1, h2]
  have hms : arrivals.mergeSort (fun a b => decide (a.1 ≤ b.1)) = arrivals := by
    apply List.mergeSort_of_sorted
    simpa using hsort.imp (fun h => le_of_lt h)
  simp only [ClinicQueueSimulator.load_arrivals, hfil, hms]

/-- Witness for the amended C10: a two-arrival in-hours, sorted feed is
admitted verbatim with sequential ids. -/
theorem C10_admits_input_only_if_filtered_sorted_witness :
    (simDefault.load_arrivals [(360, "P"), (400, "NP")]).pending_arrivals
      = numberArrivals 0 [(360, "P"), (400, "NP")] :=
  C10_admits_input_only_if_filtered_sorted simDefault
    [(360, "P"), (400, "NP")]
    (by
      intro a ha
      simp only [List.mem_cons, List.not_mem_nil, or_false] at ha
      rcases ha with h | h <;> subst h <;> constructor <;> norm_num [simDefault])
    (by norm_num [List.pairwise_cons])

-- ### The event loop of `simulate_day`

/-- Embedding of `ClinicQueueSimulator.process_arrivals` (lines 114-131):
admit every pending customer with `arrival_time <= current_time` (in
order) to the rear of the queue, recording each arrival; keep the rest
pending.  The source's single partition loop preserves relative order in
both parts, which the two filters reproduce. -/
def ClinicQueueSimulator.process_arrivals (sim : ClinicQueueSimulator)
    (current_time : ℚ) : ClinicQueueSimulator :=
  let new_arrivals := sim.pending_arrivals.filter
    (fun c => decide (c.arrival_time ≤ current_time))
  let remaining := sim.pending_arrivals.filter
    (fun c => !decide (c.arrival_time ≤ current_time))
  { sim with
    pending_arrivals := remaining
    queue := sim.queue ++ new_arrivals
    simulation_state := new_arrivals.foldl
      (fun st c => st.add_customer_arrival c) sim.simulation_state }

/-- The window sweep of `process_service_completions` (lines 133-141):
free every busy window whose service is complete, recording each
completion, in window order. -/
def processCompletionsGo (t : ℚ) (st : ClinicSimulationState) :
    List ServiceWindow → List ServiceWindow × ClinicSimulationState
  | [] => ([], st)
  | w :: ws =>
    if !w.is_available && w.is_service_complete t then
      let r := w.finish_service
      let st' := match r.1 with
        | some c => st.record_service_completion c t
        | none => st
      let rest := processCompletionsGo t st' ws
      (r.2 :: rest.1, rest.2)
    else
      let rest := processCompletionsGo t st ws
      (w :: rest.1, rest.2)

/-- Embedding of `ClinicQueueSimulator.process_service_completions`. -/
def ClinicQueueSimulator.process_service_completions
    (sim : ClinicQueueSimulator) (current_time : ℚ) : ClinicQueueSimulator :=
  let r := processCompletionsGo current_time sim.simulation_state
    sim.service_windows
  { sim with
    service_windows := r.1
    simulation_state := r.2 }

/-- The window sweep of `assign_customers_to_windows` (lines 143-160):
each available window takes the queue head (when any), computing the
completion time from the expected service duration and recording the
service start. -/
def assignGo (repo : Repo) (t : ℚ) :
    List Customer → ClinicSimulationState → List ServiceWindow →
    List ServiceWindow × List Customer × ClinicSimulationState
  | q, st, [] => ([], q, st)
  | q, st, w :: ws =>
    if w.is_available && decide (0 < q.length) then
      match q with
      | [] =>
        let rest := assignGo repo t [] st ws
        (w :: rest.1, rest.2)
      | c :: q' =>
        let service_end_time := t + get_estimated_service_time c repo
        let w' := w.start_service c service_end_time
        let st' := st.record_service_start c t
        let rest := assignGo repo t q' st' ws
        (w' :: rest.1, rest.2)
    else
      let rest := assignGo repo t q st ws
      (w :: rest.1, rest.2)

/-- Embedding of `ClinicQueueSimulator.assign_customers_to_windows`. -/
def ClinicQueueSimulator.assign_customers_to_windows
    (sim : ClinicQueueSimulator) (current_time : ℚ) : ClinicQueueSimulator :=
  let r := assignGo sim.service_times_repo current_time sim.queue
    sim.simulation_state sim.service_windows
  { sim with
    service_windows := r.1
    queue := r.2.1
    simulation_state := r.2.2 }

/-- Embedding of `ClinicQueueSimulator.handle_closing_time` (lines
202-209): drain the queue in order, recording each customer as having
left unserved at closing. -/
def ClinicQueueSimulator.handle_closing_time (sim : ClinicQueueSimulator)
    (closing_time : ℚ) : ClinicQueueSimulator :=
  { sim with
    queue := []
    simulation_state := sim.queue.foldl
      (fun st c => st.record_customer_left_at_closing c closing_time)
      sim.simulation_state }

/-- Embedding of `ClinicQueueSimulator.get_next_event_time` (lines
211-232): the earliest among the next pending arrival (when any) and the
completion times of busy windows; `none` when there are no candidates. -/
def ClinicQueueSimulator.get_next_event_time (sim : ClinicQueueSimulator) :
    Option ℚ :=
  let arrivalTimes := match sim.pending_arrivals with
    | [] => []
    | c :: _ => [c.arrival_time]
  let windowTimes := sim.service_windows.filterMap
    (fun w => if !w.is_available then w.service_end_time else none)
  pyMin (arrivalTimes ++ windowTimes)

/-- The main simulation loop of `simulate_day` (lines 278-315), with an
explicit iteration budget (`none` = budget exhausted before the loop
exited; every theorem below conditions on a normal exit).  Each
iteration: admit arrivals, free completed windows, assign queue heads to
free windows, run the periodic optimization (whose
`update_queue_improved` call raises `TypeError` whenever it fires with
more than one queued customer — see `optimize_queue`), then jump to the
next event or to closing.  The interval test
`(current - last).total_seconds() >= interval * 60` is `current - last ≥
interval` in minutes. -/
def simLoop (closing_time optimization_interval_minutes : ℚ) :
    ℕ → ClinicQueueSimulator → ℚ → Option (Except PyError ClinicQueueSimulator)
  | 0, _, _ => none
  | fuel + 1, sim, last_optimization_time =>
    if sim.current_time < closing_time then
      let s1 := sim.process_arrivals sim.current_time
      let s2 := s1.process_service_completions s1.current_time
      let s3 := s2.assign_customers_to_windows s2.current_time
      let trigger := decide (optimization_interval_minutes
        ≤ s3.current_time - last_optimization_time)
      match (if trigger then s3.optimize_queue else Except.ok s3 :
          Except PyError ClinicQueueSimulator) with
      | .error e => some (.error e)
      | .ok s4 =>
        let lastOpt := if trigger then s3.current_time
          else last_optimization_time
        match s4.get_next_event_time with
        | none => some (.ok { s4 with current_time := closing_time })
        | some ne =>
          if closing_time ≤ ne then
            some (.ok { s4 with current_time := closing_time })
          else
            simLoop closing_time optimization_interval_minutes fuel
              { s4 with current_time := ne } lastOpt
    else some (.ok sim)

/-- The post-closing wind-down loop of `simulate_day` (lines 320-334):
process completions until all windows are idle or the bounded grace
period (`max_wait_time`) runs out, jumping to the earlier of the next
event and `max_wait_time`. -/
def graceLoop (max_wait_time : ℚ) :
    ℕ → ClinicQueueSimulator → Option ClinicQueueSimulator
  | 0, _ => none
  | fuel + 1, sim =>
    if sim.current_time < max_wait_time then
      let s1 := sim.process_service_completions sim.current_time
      if s1.service_windows.all (fun w => w.is_available) then some s1
      else
        match s1.get_next_event_time with
        | none => some s1
        | some ne =>
          graceLoop max_wait_time fuel
            { s1 with current_time := min ne max_wait_time }
    else some sim

/-- Embedding of `ClinicQueueSimulator.simulate_day` (lines 234-339):
set up windows, load (filter/sort/number) the arrivals, reset the
simulation state, run the main loop from the opening instant, drain the
queue at closing, then run the one-hour grace wind-down.  The Python
method returns `self.simulation_state`; the embedding returns the whole
final simulator object (its `.simulation_state` field is that state, and
its windows witness whether the wind-down finished).  Both loops carry an
explicit budget; `none` means the budget ran out, and every theorem
below conditions on a normal return. -/
def ClinicQueueSimulator.simulate_day (sim : ClinicQueueSimulator)
    (arrivals : List (ℚ × String))
    (optimization_interval_minutes : ℚ) (fuel : ℕ) :
    Option (Except PyError ClinicQueueSimulator) :=
  let opening_time : ℚ := (sim.opening_hour : ℚ) * 60
  let closing_time : ℚ := (sim.closing_hour : ℚ) * 60
  let s1 := (sim.setup_service_windows).load_arrivals arrivals
  let s2 := { s1 with
    simulation_state := ⟨[], 0, 0, 0⟩
    current_time := opening_time }
  match simLoop closing_time optimization_interval_minutes fuel s2
      opening_time with
  | none => none
  | some (.error e) => some (.error e)
  | some (.ok s3) =>
    let s4 := s3.handle_closing_time closing_time
    match graceLoop (closing_time + 60) fuel s4 with
    | none => none
    | some s5 => some (.ok s5)

-- ### C3: conservation of customers at end of day

/-- C3 (counterexample): the wind-down grace period is bounded (one hour
past closing), so a service still running at `closing + 60` is cut off
unrecorded.  One window with an 800-minute service time and a single
06:00 arrival: the day ends with the customer neither served nor left at
closing, and `served + left_at_closing = 0 ≠ 1 = arrived`. -/
theorem C3_grace_truncation_counterexample :
    ∃ out : ClinicQueueSimulator,
      ({ simDefault with
          num_service_windows := 1
          service_times_repo := fun _ => 800 } :
            ClinicQueueSimulator).simulate_day [(360, "NP")] 10 5
        = some (Except.ok out) ∧
      out.simulation_state.total_customers_served
          + out.simulation_state.total_customers_left_at_closing
        ≠ out.simulation_state.total_customers_arrived ∧
      ∃ r ∈ out.simulation_state.customer_records,
        r.was_served = false ∧ r.left_at_closing = false := by
  refine ⟨{ simDefault with
      num_service_windows := 1
      service_times_repo := fun _ => 800
      service_windows := [⟨0, false, some ⟨0, 360, "NP", 0⟩, some 1160⟩]
      queue := []
      simulation_state :=
        ⟨[⟨0, "NP", 360, some 360, none, none, false, false⟩], 1, 0, 0⟩
      pending_arrivals := []
      current_time := 1140 }, ?_, by simp, ?_⟩
  swap
  · exact ⟨⟨0, "NP", 360, some 360, none, none, false, false⟩, by simp, rfl, rfl⟩
  norm_num [ClinicQueueSimulator.simulate_day,
    ClinicQueueSimulator.setup_service_windows,
    ClinicQueueSimulator.load_arrivals, numberArrivals, simLoop, graceLoop,
    ClinicQueueSimulator.process_arrivals,
    ClinicQueueSimulator.process_service_completions,
    processCompletionsGo, ClinicQueueSimulator.assign_customers_to_windows,
    assignGo, ClinicQueueSimulator.optimize_queue, callUpdateQueueImproved,
    ClinicQueueSimulator.handle_closing_time,
    ClinicQueueSimulator.get_next_event_time,
    ClinicSimulationState.add_customer_arrival,
    ClinicSimulationState.record_service_start,
    ClinicSimulationState.record_service_completion, updFirst,
    ServiceWindow.start_service, ServiceWindow.finish_service,
    ServiceWindow.is_service_complete,
    get_estimated_service_time, pyMin, pyMinAux, simDefault, List.filter,
    List.mergeSort, List.filterMap_cons, List.filterMap_nil, List.all_cons,
    List.all_nil]

/-- Customer ids in queue order. -/
def queueIds (q : List Customer) : List ℕ := q.map (fun c => c.customer_id)

/-- Customer ids held by windows, in window order. -/
def windowIds (ws : List ServiceWindow) : List ℕ :=
  ws.filterMap (fun w => w.current_customer.map (fun c => c.customer_id))

/-- Every id currently "in the building": waiting in queue or in service. -/
def placeIds (sim : ClinicQueueSimulator) : List ℕ :=
  queueIds sim.queue ++ windowIds sim.service_windows

/-- Bookkeeping invariant of the simulation record against a list `P` of
in-place ids: records have pairwise-distinct ids, the three counters
agree with the records, no record is flagged both ways, and the
unflagged records are exactly the in-place customers. -/
structure StInv (st : ClinicSimulationState) (P : List ℕ) : Prop where
  idsNodup : (st.customer_records.map (fun r => r.customer_id)).Nodup
  arrivedEq : st.total_customers_arrived = st.customer_records.length
  servedEq : st.total_customers_served
    = (st.customer_records.filter (fun r => r.was_served)).length
  leftEq : st.total_customers_left_at_closing
    = (st.customer_records.filter (fun r => r.left_at_closing)).length
  notBoth : ∀ r ∈ st.customer_records,
    r.was_served = false ∨ r.left_at_closing = false
  placeNodup : P.Nodup
  placeMatch : ∀ i, i ∈ P ↔ ∃ r ∈ st.customer_records,
    r.customer_id = i ∧ r.was_served = false ∧ r.left_at_closing = false

/-- Full simulator invariant: the record bookkeeping holds against the
in-place ids, windows are available exactly when empty, and pending
arrivals are id-distinct and not yet recorded. -/
structure SimInv (sim : ClinicQueueSimulator) : Prop where
  stInv : StInv sim.simulation_state (placeIds sim)
  winAvail : ∀ w ∈ sim.service_windows,
    w.is_available = true ↔ w.current_customer = none
  pendNodup : (sim.pending_arrivals.map (fun c => c.customer_id)).Nodup
  pendFresh : ∀ c ∈ sim.pending_arrivals,
    c.customer_id ∉ sim.simulation_state.customer_records.map
      (fun r => r.customer_id)

lemma StInv.perm {st : ClinicSimulationState} {P P' : List ℕ}
    (h : StInv st P) (hp : List.Perm P P') : StInv st P' :=
  ⟨h.idsNodup, h.arrivedEq, h.servedEq, h.leftEq, h.notBoth,
   hp.nodup h.placeNodup,
   fun i => Iff.trans (Iff.intro (fun hi => hp.mem_iff.mp hi)
     (fun hi => hp.mem_iff.mpr hi)).symm (h.placeMatch i)⟩

-- ### Generic `updFirst` lemmas

lemma updFirst_of_forall_not {α} (p : α → Bool) (f : α → α) :
    ∀ (l : List α), (∀ x ∈ l, p x = false) → updFirst p f l = (l, false) := by
  intro l
  induction l with
  | nil => intro _; rfl
  | cons x xs ih =>
    intro h
    have hx := h x (by simp)
    simp [updFirst, hx, ih (fun y hy => h y (by simp [hy]))]

lemma updFirst_decomp {α} (p : α → Bool) (f : α → α) :
    ∀ (l1 : List α) (x : α) (l2 : List α), (∀ y ∈ l1, p y = false) →
      p x = true →
      updFirst p f (l1 ++ x :: l2) = (l1 ++ f x :: l2, true) := by
  intro l1
  induction l1 with
  | nil => intro x l2 _ hx; simp [updFirst, hx]
  | cons y l1 ih =>
    intro x l2 h1 hx
    have hy := h1 y (by simp)
    simp [List.cons_append, updFirst, hy,
      ih x l2 (fun z hz => h1 z (by simp [hz])) hx]

lemma updFirst_map_eq {α β} (p : α → Bool) (f : α → α) (g : α → β)
    (hg : ∀ x, g (f x) = g x) :
    ∀ (l : List α), ((updFirst p f l).1).map g = l.map g := by
  intro l
  induction l with
  | nil => rfl
  | cons x xs ih =>
    simp only [updFirst]
    split
    · simp [hg]
    · simp [ih]

-- ### Effect of each record operation on the bookkeeping invariant

/-- Admitting an arrival extends the records with a fresh unflagged entry
and appends its id to the in-place ids. -/
lemma StInv.arrival {st : ClinicSimulationState} {P : List ℕ}
    (h : StInv st P) (c : Customer)
    (hfresh : c.customer_id ∉ st.customer_records.map
      (fun r => r.customer_id)) :
    StInv (st.add_customer_arrival c) (P ++ [c.customer_id]) := by
  have hPid : c.customer_id ∉ P := by
    intro hc
    obtain ⟨r, hr, hid, _, _⟩ := (h.placeMatch c.customer_id).mp hc
    exact hfresh (List.mem_map.mpr ⟨r, hr, hid⟩)
  refine ⟨?_, ?_, ?_, ?_, ?_, ?_, ?_⟩
  · simp only [ClinicSimulationState.add_customer_arrival, List.map_append,
      List.map_cons]
    rw [List.nodup_append]
    exact ⟨h.idsNodup, by simp, by
      intro a ha
      simp only [List.map_cons, List.map_nil, List.mem_cons,
        List.not_mem_nil, or_false]
      intro hc
      subst hc
      exact hfresh ha⟩
  · simp [ClinicSimulationState.add_customer_arrival, h.arrivedEq]
  · simp [ClinicSimulationState.add_customer_arrival, h.servedEq]
  · simp [ClinicSimulationState.add_customer_arrival, h.leftEq]
  · intro r hr
    simp only [ClinicSimulationState.add_customer_arrival,
      List.mem_append, List.mem_cons, List.not_mem_nil, or_false] at hr
    rcases hr with hr | hr
    · exact h.notBoth r hr
    · subst hr; exact Or.inl rfl
  · rw [List.nodup_append]
    exact ⟨h.placeNodup, by simp, by
      intro a ha
      simp only [List.mem_cons, List.not_mem_nil, or_false]
      intro hc
      subst hc
      exact hPid ha⟩
  · intro j
    simp only [ClinicSimulationState.add_customer_arrival, List.mem_append,
      List.mem_cons, List.not_mem_nil, or_false]
    constructor
    · intro hj
      rcases hj with hj | hj
      · obtain ⟨r, hr, hprops⟩ := (h.placeMatch j).mp hj
        exact ⟨r, Or.inl hr, hprops⟩
      · subst hj
        exact ⟨_, Or.inr rfl, rfl, rfl, rfl⟩
    · rintro ⟨r, hr | hr, hid, hs, hl⟩
      · exact Or.inl ((h.placeMatch j).mpr ⟨r, hr, hid, hs, hl⟩)
      · subst hr
        exact Or.inr hid.symm

/-- Two lists with the same image under `g` have filters of equal length. -/
lemma filterLen_eq_of_map_eq {α} (g : α → Bool) :
    ∀ {l1 l2 : List α}, l1.map g = l2.map g →
      (l1.filter g).length = (l2.filter g).length := by
  have h1 : ∀ l : List α,
      (l.filter g).length = List.countP (fun b => b) (l.map g) := by
    intro l
    rw [List.countP_map, ← List.countP_eq_length_filter]
    rfl
  intro l1 l2 h
  rw [h1, h1, h]

/-- Stamping a service start changes no id, flag, counter, or length. -/
lemma StInv.start {st : ClinicSimulationState} {P : List ℕ}
    (h : StInv st P) (c : Customer) (t : ℚ) :
    StInv (st.record_service_start c t) P := by
  have hkey : ((st.record_service_start c t).customer_records).map
      (fun r => (r.customer_id, r.was_served, r.left_at_closing))
      = st.customer_records.map
        (fun r => (r.customer_id, r.was_served, r.left_at_closing)) := by
    simp only [ClinicSimulationState.record_service_start]
    apply updFirst_map_eq
    intro x
    rfl
  have hids : ((st.record_service_start c t).customer_records).map
      (fun r => r.customer_id) = st.customer_records.map
        (fun r => r.customer_id) := by
    simp only [ClinicSimulationState.record_service_start]
    apply updFirst_map_eq
    intro x
    rfl
  have hserved : ((st.record_service_start c t).customer_records).map
      (fun r => r.was_served) = st.customer_records.map
        (fun r => r.was_served) := by
    simp only [ClinicSimulationState.record_service_start]
    apply updFirst_map_eq
    intro x
    rfl
  have hleft : ((st.record_service_start c t).customer_records).map
      (fun r => r.left_at_closing) = st.customer_records.map
        (fun r => r.left_at_closing) := by
    simp only [ClinicSimulationState.record_service_start]
    apply updFirst_map_eq
    intro x
    rfl
  have hlen : (st.record_service_start c t).customer_records.length
      = st.customer_records.length := by
    have := congrArg List.length hids
    simpa using this
  have hfils : ((st.record_service_start c t).customer_records.filter
      (fun r => r.was_served)).length
      = (st.customer_records.filter (fun r => r.was_served)).length :=
    filterLen_eq_of_map_eq _ hserved
  have hfill : ((st.record_service_start c t).customer_records.filter
      (fun r => r.left_at_closing)).length
      = (st.customer_records.filter (fun r => r.left_at_closing)).length :=
    filterLen_eq_of_map_eq _ hleft
  have hcnt : (st.record_service_start c t).total_customers_arrived
        = st.total_customers_arrived
      ∧ (st.record_service_start c t).total_customers_served
        = st.total_customers_served
      ∧ (st.record_service_start c t).total_customers_left_at_closing
        = st.total_customers_left_at_closing := by
    simp [ClinicSimulationState.record_service_start]
  refine ⟨by rw [hids]; exact h.idsNodup, ?_, ?_, ?_, ?_, h.placeNodup, ?_⟩
  · rw [hcnt.1, hlen]
    exact h.arrivedEq
  · rw [hcnt.2.1, hfils]
    exact h.servedEq
  · rw [hcnt.2.2, hfill]
    exact h.leftEq
  · intro r hr
    have hmem : (r.customer_id, r.was_served, r.left_at_closing)
        ∈ st.customer_records.map
          (fun r => (r.customer_id, r.was_served, r.left_at_closing)) := by
      rw [← hkey]
      exact List.mem_map.mpr ⟨r, hr, rfl⟩
    obtain ⟨r0, hr0, heq⟩ := List.mem_map.mp hmem
    have hs : r0.was_served = r.was_served := congrArg (fun p => p.2.1) heq
    have hl : r0.left_at_closing = r.left_at_closing :=
      congrArg (fun p => p.2.2) heq
    rcases h.notBoth r0 hr0 with hc | hc
    · exact Or.inl (by rw [← hs]; exact hc)
    · exact Or.inr (by rw [← hl]; exact hc)
  · intro j
    rw [h.placeMatch j]
    constructor
    · rintro ⟨r, hr, hid, hs, hl⟩
      have hmem : ((j, false, false) : ℕ × Bool × Bool)
          ∈ st.customer_records.map
            (fun r => (r.customer_id, r.was_served, r.left_at_closing)) :=
        List.mem_map.mpr ⟨r, hr, by rw [hid, hs, hl]⟩
      rw [← hkey] at hmem
      obtain ⟨r1, hr1, heq⟩ := List.mem_map.mp hmem
      exact ⟨r1, hr1, congrArg (fun p => p.1) heq,
        congrArg (fun p => p.2.1) heq, congrArg (fun p => p.2.2) heq⟩
    · rintro ⟨r, hr, hid, hs, hl⟩
      have hmem : ((j, false, false) : ℕ × Bool × Bool)
          ∈ (st.record_service_start c t).customer_records.map
            (fun r => (r.customer_id, r.was_served, r.left_at_closing)) :=
        List.mem_map.mpr ⟨r, hr, by rw [hid, hs, hl]⟩
      rw [hkey] at hmem
      obtain ⟨r1, hr1, heq⟩ := List.mem_map.mp hmem
      exact ⟨r1, hr1, congrArg (fun p => p.1) heq,
        congrArg (fun p => p.2.1) heq, congrArg (fun p => p.2.2) heq⟩

/-- An in-place id names exactly one record, which is unflagged; split
the record list around it. -/
lemma StInv.records_decomp {st : ClinicSimulationState} {P : List ℕ}
    (h : StInv st P) (i : ℕ) (hi : i ∈ P) :
    ∃ l1 r l2, st.customer_records = l1 ++ r :: l2 ∧ r.customer_id = i ∧
      r.was_served = false ∧ r.left_at_closing = false ∧
      (∀ y ∈ l1, y.customer_id ≠ i) ∧ (∀ y ∈ l2, y.customer_id ≠ i) := by
  obtain ⟨r, hr, hid, hs, hl⟩ := (h.placeMatch i).mp hi
  obtain ⟨l1, l2, hsplit⟩ := List.append_of_mem hr
  have hnd := h.idsNodup
  rw [hsplit] at hnd
  simp only [List.map_append, List.map_cons] at hnd
  have h1 : ∀ y ∈ l1, y.customer_id ≠ i := by
    intro y hy hcon
    exact List.disjoint_of_nodup_append hnd
      (List.mem_map.mpr ⟨y, hy, hcon⟩) (by simp [hid])
  have h2 : ∀ y ∈ l2, y.customer_id ≠ i := by
    intro y hy hcon
    have hnd2 := hnd.of_append_right
    rw [List.nodup_cons] at hnd2
    exact hnd2.1 (List.mem_map.mpr ⟨y, hy, hcon.trans hid.symm⟩)
  exact ⟨l1, r, l2, hsplit, hid, hs, hl, h1, h2⟩

/-- Recording a completion flags the (unique, unflagged) matching record
as served, bumps the served counter, and removes its id from the
in-place ids; every other bookkeeping fact is untouched. -/
lemma StInv.complete {st : ClinicSimulationState} {P : List ℕ} {i : ℕ}
    (h : StInv st (i :: P)) (c : Customer) (hc : c.customer_id = i)
    (t : ℚ) :
    StInv (st.record_service_completion c t) P ∧
    (st.record_service_completion c t).customer_records.map
        (fun r => r.customer_id)
      = st.customer_records.map (fun r => r.customer_id) := by
  obtain ⟨l1, r, l2, hsplit, hid, hs, hl, h1, h2⟩ :=
    h.records_decomp i (by simp)
  have hiP : i ∉ P := by
    have := h.placeNodup
    rw [List.nodup_cons] at this
    exact this.1
  have hl1p : ∀ y ∈ l1,
      (fun r0 => decide (r0.customer_id = c.customer_id)) y = false := by
    intro y hy
    simp only [decide_eq_false_iff_not, hc]
    exact h1 y hy
  have hrp : (fun r0 => decide (r0.customer_id = c.customer_id)) r = true := by
    simp [hid, hc]
  have hupd := updFirst_decomp
    (fun r0 => decide (r0.customer_id = c.customer_id))
    (fun r0 => { r0 with
      service_end_time := some t
      departure_time := some t
      was_served := true }) l1 r l2 hl1p hrp
  have hrecords : (st.record_service_completion c t).customer_records
      = l1 ++ { r with
          service_end_time := some t
          departure_time := some t
          was_served := true } :: l2 := by
    simp only [ClinicSimulationState.record_service_completion, hsplit, hupd]
  have hflag : (st.record_service_completion c t).total_customers_served
      = st.total_customers_served + 1 := by
    simp only [ClinicSimulationState.record_service_completion, hsplit, hupd]
    simp
  have harr : (st.record_service_completion c t).total_customers_arrived
      = st.total_customers_arrived := rfl
  have hlft : (st.record_service_completion c t).total_customers_left_at_closing
      = st.total_customers_left_at_closing := rfl
  have hids : (st.record_service_completion c t).customer_records.map
        (fun r => r.customer_id)
      = st.customer_records.map (fun r => r.customer_id) := by
    rw [hrecords, hsplit]
    simp
  refine ⟨⟨?_, ?_, ?_, ?_, ?_, ?_, ?_⟩, hids⟩
  · rw [hids]; exact h.idsNodup
  · rw [harr, hrecords]
    have hlen0 : st.total_customers_arrived = (l1 ++ r :: l2).length := by
      rw [← hsplit]; exact h.arrivedEq
    rw [hlen0]
    simp
  · rw [hflag, hrecords]
    have hold : st.total_customers_served
        = ((l1 ++ r :: l2).filter (fun r => r.was_served)).length := by
      rw [← hsplit]; exact h.servedEq
    rw [hold]
    simp [List.filter_append, hs]
    omega
  · rw [hlft, hrecords]
    have hold : st.total_customers_left_at_closing
        = ((l1 ++ r :: l2).filter (fun r => r.left_at_closing)).length := by
      rw [← hsplit]; exact h.leftEq
    rw [hold]
    simp [List.filter_append, hl]
  · intro r0 hr0
    rw [hrecords] at hr0
    simp only [List.mem_append, List.mem_cons] at hr0
    rcases hr0 with hr0 | hr0 | hr0
    · exact h.notBoth r0 (by rw [hsplit]; simp [hr0])
    · subst hr0; exact Or.inr hl
    · exact h.notBoth r0 (by rw [hsplit]; simp [hr0])
  · have := h.placeNodup
    rw [List.nodup_cons] at this
    exact this.2
  · intro j
    constructor
    · intro hj
      have hji : j ≠ i := fun hcon => hiP (hcon ▸ hj)
      obtain ⟨r0, hr0, hjd, hjs, hjl⟩ := (h.placeMatch j).mp (by simp [hj])
      rw [hsplit] at hr0
      simp only [List.mem_append, List.mem_cons] at hr0
      rcases hr0 with hr0 | hr0 | hr0
      · exact ⟨r0, by rw [hrecords]; simp [hr0], hjd, hjs, hjl⟩
      · exact absurd (hr0 ▸ hjd : r.customer_id = j) (by rw [hid]; exact fun hcon => hji hcon.symm)
      · exact ⟨r0, by rw [hrecords]; simp [hr0], hjd, hjs, hjl⟩
    · rintro ⟨r0, hr0, hjd, hjs, hjl⟩
      rw [hrecords] at hr0
      simp only [List.mem_append, List.mem_cons] at hr0
      rcases hr0 with hr0 | hr0 | hr0
      · have hmem := (h.placeMatch j).mpr
          ⟨r0, by rw [hsplit]; simp [hr0], hjd, hjs, hjl⟩
        simp only [List.mem_cons] at hmem
        rcases hmem with hmem | hmem
        · exact absurd (hmem ▸ hjd) (fun hcon => h1 r0 hr0 hcon)
        · exact hmem
      · rw [hr0] at hjs
        simp at hjs
      · have hmem := (h.placeMatch j).mpr
          ⟨r0, by rw [hsplit]; simp [hr0], hjd, hjs, hjl⟩
        simp only [List.mem_cons] at hmem
        rcases hmem with hmem | hmem
        · exact absurd (hmem ▸ hjd) (fun hcon => h2 r0 hr0 hcon)
        · exact hmem

/-- Recording a departure-at-closing flags the matching record as left,
bumps the left counter, and removes its id from the in-place ids. -/
lemma StInv.left {st : ClinicSimulationState} {P : List ℕ} {i : ℕ}
    (h : StInv st (i :: P)) (c : Customer) (hc : c.customer_id = i)
    (ct : ℚ) :
    StInv (st.record_customer_left_at_closing c ct) P ∧
    (st.record_customer_left_at_closing c ct).customer_records.map
        (fun r => r.customer_id)
      = st.customer_records.map (fun r => r.customer_id) := by
  obtain ⟨l1, r, l2, hsplit, hid, hs, hl, h1, h2⟩ :=
    h.records_decomp i (by simp)
  have hiP : i ∉ P := by
    have := h.placeNodup
    rw [List.nodup_cons] at this
    exact this.1
  have hl1p : ∀ y ∈ l1,
      (fun r0 => decide (r0.customer_id = c.customer_id)) y = false := by
    intro y hy
    simp only [decide_eq_false_iff_not, hc]
    exact h1 y hy
  have hrp : (fun r0 => decide (r0.customer_id = c.customer_id)) r = true := by
    simp [hid, hc]
  have hupd := updFirst_decomp
    (fun r0 => decide (r0.customer_id = c.customer_id))
    (fun r0 => { r0 with
      departure_time := some ct
      left_at_closing := true }) l1 r l2 hl1p hrp
  have hrecords : (st.record_customer_left_at_closing c ct).customer_records
      = l1 ++ { r with
          departure_time := some ct
          left_at_closing := true } :: l2 := by
    simp only [ClinicSimulationState.record_customer_left_at_closing,
      hsplit, hupd]
  have hflag :
      (st.record_customer_left_at_closing c ct).total_customers_left_at_closing
      = st.total_customers_left_at_closing + 1 := by
    simp only [ClinicSimulationState.record_customer_left_at_closing,
      hsplit, hupd]
    simp
  have harr : (st.record_customer_left_at_closing c ct).total_customers_arrived
      = st.total_customers_arrived := rfl
  have hsrv : (st.record_customer_left_at_closing c ct).total_customers_served
      = st.total_customers_served := rfl
  have hids : (st.record_customer_left_at_closing c ct).customer_records.map
        (fun r => r.customer_id)
      = st.customer_records.map (fun r => r.customer_id) := by
    rw [hrecords, hsplit]
    simp
  refine ⟨⟨?_, ?_, ?_, ?_, ?_, ?_, ?_⟩, hids⟩
  · rw [hids]; exact h.idsNodup
  · rw [harr, hrecords]
    have hlen0 : st.total_customers_arrived = (l1 ++ r :: l2).length := by
      rw [← hsplit]; exact h.arrivedEq
    rw [hlen0]
    simp
  · rw [hsrv, hrecords]
    have hold : st.total_customers_served
        = ((l1 ++ r :: l2).filter (fun r => r.was_served)).length := by
      rw [← hsplit]; exact h.servedEq
    rw [hold]
    simp [List.filter_append, hs]
  · rw [hflag, hrecords]
    have hold : st.total_customers_left_at_closing
        = ((l1 ++ r :: l2).filter (fun r => r.left_at_closing)).length := by
      rw [← hsplit]; exact h.leftEq
    rw [hold]
    simp [List.filter_append, hl]
    omega
  · intro r0 hr0
    rw [hrecords] at hr0
    simp only [List.mem_append, List.mem_cons] at hr0
    rcases hr0 with hr0 | hr0 | hr0
    · exact h.notBoth r0 (by rw [hsplit]; simp [hr0])
    · subst hr0; exact Or.inl hs
    · exact h.notBoth r0 (by rw [hsplit]; simp [hr0])
  · have := h.placeNodup
    rw [List.nodup_cons] at this
    exact this.2
  · intro j
    constructor
    · intro hj
      have hji : j ≠ i := fun hcon => hiP (hcon ▸ hj)
      obtain ⟨r0, hr0, hjd, hjs, hjl⟩ := (h.placeMatch j).mp (by simp [hj])
      rw [hsplit] at hr0
      simp only [List.mem_append, List.mem_cons] at hr0
      rcases hr0 with hr0 | hr0 | hr0
      · exact ⟨r0, by rw [hrecords]; simp [hr0], hjd, hjs, hjl⟩
      · exact absurd (hr0 ▸ hjd : r.customer_id = j)
          (by rw [hid]; exact fun hcon => hji hcon.symm)
      · exact ⟨r0, by rw [hrecords]; simp [hr0], hjd, hjs, hjl⟩
    · rintro ⟨r0, hr0, hjd, hjs, hjl⟩
      rw [hrecords] at hr0
      simp only [List.mem_append, List.mem_cons] at hr0
      rcases hr0 with hr0 | hr0 | hr0
      · have hmem := (h.placeMatch j).mpr
          ⟨r0, by rw [hsplit]; simp [hr0], hjd, hjs, hjl⟩
        simp only [List.mem_cons] at hmem
        rcases hmem with hmem | hmem
        · exact absurd (hmem ▸ hjd) (fun hcon => h1 r0 hr0 hcon)
        · exact hmem
      · rw [hr0] at hjl
        simp at hjl
      · have hmem := (h.placeMatch j).mpr
          ⟨r0, by rw [hsplit]; simp [hr0], hjd, hjs, hjl⟩
        simp only [List.mem_cons] at hmem
        rcases hmem with hmem | hmem
        · exact absurd (hmem ▸ hjd) (fun hcon => h2 r0 hr0 hcon)
        · exact hmem

/-- Admitting a batch of id-fresh, id-distinct arrivals in order extends
the in-place ids by their ids. -/
lemma StInv.arrivals_fold :
    ∀ (L : List Customer) (st : ClinicSimulationState) (P : List ℕ),
      StInv st P →
      (L.map (fun c => c.customer_id)).Nodup →
      (∀ c ∈ L, c.customer_id ∉ st.customer_records.map
        (fun r => r.customer_id)) →
      StInv (L.foldl (fun st c => st.add_customer_arrival c) st)
        (P ++ L.map (fun c => c.customer_id)) ∧
      (L.foldl (fun st c => st.add_customer_arrival c) st).customer_records.map
          (fun r => r.customer_id)
        = st.customer_records.map (fun r => r.customer_id)
          ++ L.map (fun c => c.customer_id) := by
  intro L
  induction L with
  | nil =>
    intro st P h _ _
    exact ⟨by simpa using h, by simp⟩
  | cons c L ih =>
    intro st P h hnd hfresh
    have h1 : StInv (st.add_customer_arrival c) (P ++ [c.customer_id]) :=
      h.arrival c (hfresh c (by simp))
    have hids1 : (st.add_customer_arrival c).customer_records.map
        (fun r => r.customer_id)
        = st.customer_records.map (fun r => r.customer_id)
          ++ [c.customer_id] := by
      simp [ClinicSimulationState.add_customer_arrival]
    have hnd' : (L.map (fun c => c.customer_id)).Nodup := by
      simp only [List.map_cons, List.nodup_cons] at hnd
      exact hnd.2
    have hfresh' : ∀ x ∈ L, x.customer_id ∉
        (st.add_customer_arrival c).customer_records.map
          (fun r => r.customer_id) := by
      intro x hx
      rw [hids1]
      simp only [List.mem_append, List.mem_cons, List.not_mem_nil, or_false]
      rintro (hmem | hmem)
      · exact hfresh x (by simp [hx]) hmem
      · simp only [List.map_cons, List.nodup_cons] at hnd
        exact hnd.1 (hmem ▸ List.mem_map.mpr ⟨x, hx, rfl⟩)
    obtain ⟨hInv, hidsL⟩ := ih (st.add_customer_arrival c)
      (P ++ [c.customer_id]) h1 hnd' hfresh'
    constructor
    · have hassoc : (P ++ [c.customer_id]) ++ L.map (fun c => c.customer_id)
          = P ++ (c :: L).map (fun c => c.customer_id) := by
        simp
      rw [← hassoc]
      simpa using hInv
    · simp only [List.foldl_cons] at *
      rw [hidsL, hids1]
      simp

/-- The completion sweep preserves the bookkeeping invariant, freeing
windows and flagging their customers' records as served. -/
lemma processCompletionsGo_spec (t : ℚ) :
    ∀ (ws : List ServiceWindow) (st : ClinicSimulationState) (E : List ℕ),
      (∀ w ∈ ws, w.is_available = true ↔ w.current_customer = none) →
      StInv st (E ++ windowIds ws) →
      (∀ w ∈ (processCompletionsGo t st ws).1,
        w.is_available = true ↔ w.current_customer = none) ∧
      StInv (processCompletionsGo t st ws).2
        (E ++ windowIds (processCompletionsGo t st ws).1) ∧
      (processCompletionsGo t st ws).2.customer_records.map
          (fun r => r.customer_id)
        = st.customer_records.map (fun r => r.customer_id) := by
  intro ws
  induction ws with
  | nil =>
    intro st E _ h
    exact ⟨by simp [processCompletionsGo], by
      simpa [processCompletionsGo, windowIds] using h, rfl⟩
  | cons w ws ih =>
    intro st E hw hInv
    have hwtail : ∀ w' ∈ ws, w'.is_available = true ↔ w'.current_customer = none :=
      fun w' hw' => hw w' (by simp [hw'])
    cases hb : (!w.is_available && w.is_service_complete t) with
    | true =>
      have hav : w.is_available = false := by
        rcases Bool.and_eq_true .. |>.mp hb with ⟨hb1, _⟩
        simpa using hb1
      cases hcw : w.current_customer with
      | none =>
        -- freed slot with no customer: `finish_service` returns the window
        -- unchanged and records nothing
        have hstep : processCompletionsGo t st (w :: ws)
            = (w :: (processCompletionsGo t st ws).1,
               (processCompletionsGo t st ws).2) := by
          simp [processCompletionsGo, hb, ServiceWindow.finish_service, hcw]
        have hwid : windowIds (w :: ws) = windowIds ws := by
          simp [windowIds, hcw]
        rw [hwid] at hInv
        obtain ⟨ha, hb2, hc2⟩ := ih st E hwtail hInv
        rw [hstep]
        refine ⟨?_, ?_, hc2⟩
        · intro w' hw'
          rcases List.mem_cons.mp hw' with hw' | hw'
          · subst hw'; exact hw w' (by simp)
          · exact ha w' hw'
        · have hwid2 : windowIds (w :: (processCompletionsGo t st ws).1)
              = windowIds (processCompletionsGo t st ws).1 := by
            simp [windowIds, hcw]
          rw [hwid2]
          exact hb2
      | some c =>
        have hfin : w.finish_service = (some c, { w with
            is_available := true
            current_customer := none
            service_end_time := none }) := by
          simp [ServiceWindow.finish_service, hcw]
        have hstep : processCompletionsGo t st (w :: ws)
            = ({ w with
                is_available := true
                current_customer := none
                service_end_time := none } ::
                (processCompletionsGo t (st.record_service_completion c t) ws).1,
               (processCompletionsGo t (st.record_service_completion c t) ws).2) := by
          simp [processCompletionsGo, hb, hfin]
        have hwid : windowIds (w :: ws) = c.customer_id :: windowIds ws := by
          simp [windowIds, hcw]
        rw [hwid] at hInv
        have hInv2 : StInv st (c.customer_id :: (E ++ windowIds ws)) :=
          hInv.perm List.perm_middle
        obtain ⟨hInv3, hids3⟩ := hInv2.complete c rfl t
        obtain ⟨ha, hb2, hc2⟩ := ih (st.record_service_completion c t) E
          hwtail hInv3
        rw [hstep]
        refine ⟨?_, ?_, by rw [hc2, hids3]⟩
        · intro w' hw'
          rcases List.mem_cons.mp hw' with hw' | hw'
          · subst hw'; simp
          · exact ha w' hw'
        · have hwid2 : windowIds ({ w with
              is_available := true
              current_customer := none
              service_end_time := none } ::
                (processCompletionsGo t (st.record_service_completion c t) ws).1)
              = windowIds (processCompletionsGo t
                  (st.record_service_completion c t) ws).1 := by
            simp [windowIds]
          rw [hwid2]
          exact hb2
    | false =>
      have hstep : processCompletionsGo t st (w :: ws)
          = (w :: (processCompletionsGo t st ws).1,
             (processCompletionsGo t st ws).2) := by
        simp [processCompletionsGo, hb]
      cases hcw : w.current_customer with
      | none =>
        have hwid : windowIds (w :: ws) = windowIds ws := by
          simp [windowIds, hcw]
        rw [hwid] at hInv
        obtain ⟨ha, hb2, hc2⟩ := ih st E hwtail hInv
        rw [hstep]
        refine ⟨?_, ?_, hc2⟩
        · intro w' hw'
          rcases List.mem_cons.mp hw' with hw' | hw'
          · subst hw'; exact hw w' (by simp)
          · exact ha w' hw'
        · have hwid2 : windowIds (w :: (processCompletionsGo t st ws).1)
              = windowIds (processCompletionsGo t st ws).1 := by
            simp [windowIds, hcw]
          rw [hwid2]
          exact hb2
      | some c =>
        have hwid : windowIds (w :: ws) = c.customer_id :: windowIds ws := by
          simp [windowIds, hcw]
        have hInv2 : StInv st ((E ++ [c.customer_id]) ++ windowIds ws) := by
          rw [hwid] at hInv
          refine hInv.perm ?_
          have h3 : (E ++ [c.customer_id]) ++ windowIds ws
              = E ++ (c.customer_id :: windowIds ws) := by
            simp
          rw [h3]
        obtain ⟨ha, hb2, hc2⟩ := ih st (E ++ [c.customer_id]) hwtail hInv2
        rw [hstep]
        refine ⟨?_, ?_, hc2⟩
        · intro w' hw'
          rcases List.mem_cons.mp hw' with hw' | hw'
          · subst hw'; exact hw w' (by simp)
          · exact ha w' hw'
        · have hwid2 : windowIds (w :: (processCompletionsGo t st ws).1)
              = c.customer_id :: windowIds (processCompletionsGo t st ws).1 := by
            simp [windowIds, hcw]
          rw [hwid2]
          refine hb2.perm ?_
          have h3 : (E ++ [c.customer_id]) ++ windowIds (processCompletionsGo t st ws).1
              = E ++ (c.customer_id :: windowIds (processCompletionsGo t st ws).1) := by
            simp
          rw [h3]

/-- The assignment sweep moves queue heads into free windows; customers'
ids move from the queue part of the in-place ids to the window part, and
the record bookkeeping is untouched apart from start-time stamps. -/
lemma assignGo_spec (repo : Repo) (t : ℚ) :
    ∀ (ws : List ServiceWindow) (q : List Customer)
      (st : ClinicSimulationState) (E : List ℕ),
      (∀ w ∈ ws, w.is_available = true ↔ w.current_customer = none) →
      StInv st (queueIds q ++ (E ++ windowIds ws)) →
      (∀ w ∈ (assignGo repo t q st ws).1,
        w.is_available = true ↔ w.current_customer = none) ∧
      StInv (assignGo repo t q st ws).2.2
        (queueIds (assignGo repo t q st ws).2.1
          ++ (E ++ windowIds (assignGo repo t q st ws).1)) ∧
      (assignGo repo t q st ws).2.2.customer_records.map
          (fun r => r.customer_id)
        = st.customer_records.map (fun r => r.customer_id) := by
  intro ws
  induction ws with
  | nil =>
    intro q st E _ h
    exact ⟨by simp [assignGo], by simpa [assignGo, windowIds] using h, rfl⟩
  | cons w ws ih =>
    intro q st E hw hInv
    have hwtail : ∀ w' ∈ ws,
        w'.is_available = true ↔ w'.current_customer = none :=
      fun w' hw' => hw w' (by simp [hw'])
    cases hb : (w.is_available && decide (0 < q.length)) with
    | true =>
      have hav : w.is_available = true :=
        ((Bool.and_eq_true ..).mp hb).1
      have hcw : w.current_customer = none := (hw w (by simp)).mp hav
      cases q with
      | nil =>
        simp at hb
      | cons c q' =>
        have hstep : assignGo repo t (c :: q') st (w :: ws)
            = ((w.start_service c (t + get_estimated_service_time c repo)) ::
                (assignGo repo t q' (st.record_service_start c t) ws).1,
               (assignGo repo t q' (st.record_service_start c t) ws).2) := by
          simp [assignGo, hav]
        have hwid : windowIds (w :: ws) = windowIds ws := by
          simp [windowIds, hcw]
        have hInv1 : StInv st
            (c.customer_id :: (queueIds q' ++ (E ++ windowIds ws))) := by
          rw [hwid] at hInv
          simpa [queueIds] using hInv
        have hInv2 : StInv (st.record_service_start c t)
            (c.customer_id :: (queueIds q' ++ (E ++ windowIds ws))) :=
          hInv1.start c t
        have hInv3 : StInv (st.record_service_start c t)
            (queueIds q' ++ ((E ++ [c.customer_id]) ++ windowIds ws)) := by
          refine hInv2.perm
            (List.Perm.trans List.perm_middle.symm
              (List.Perm.append_left _ ?_))
          have h3 : (E ++ [c.customer_id]) ++ windowIds ws
              = E ++ (c.customer_id :: windowIds ws) := by simp
          rw [h3]
          exact List.perm_middle.symm
        have hidsst : (st.record_service_start c t).customer_records.map
            (fun r => r.customer_id)
            = st.customer_records.map (fun r => r.customer_id) := by
          simp only [ClinicSimulationState.record_service_start]
          apply updFirst_map_eq
          intro x
          rfl
        obtain ⟨ha, hb2, hc2⟩ := ih q' (st.record_service_start c t)
          (E ++ [c.customer_id]) hwtail hInv3
        rw [hstep]
        refine ⟨?_, ?_, by rw [hc2, hidsst]⟩
        · intro w' hw'
          rcases List.mem_cons.mp hw' with hw' | hw'
          · subst hw'
            simp [ServiceWindow.start_service]
          · exact ha w' hw'
        · have hwid2 : windowIds
              ((w.start_service c (t + get_estimated_service_time c repo)) ::
                (assignGo repo t q' (st.record_service_start c t) ws).1)
              = c.customer_id ::
                windowIds (assignGo repo t q' (st.record_service_start c t) ws).1 := by
            simp [windowIds, ServiceWindow.start_service]
          rw [hwid2]
          have h3 : (E ++ [c.customer_id])
              ++ windowIds (assignGo repo t q' (st.record_service_start c t) ws).1
              = E ++ (c.customer_id ::
                windowIds (assignGo repo t q' (st.record_service_start c t) ws).1) := by
            simp
          rw [← h3]
          exact hb2
    | false =>
      have hstep : assignGo repo t q st (w :: ws)
          = (w :: (assignGo repo t q st ws).1,
             (assignGo repo t q st ws).2) := by
        simp [assignGo, hb]
      cases hcw : w.current_customer with
      | none =>
        have hwid : windowIds (w :: ws) = windowIds ws := by
          simp [windowIds, hcw]
        rw [hwid] at hInv
        obtain ⟨ha, hb2, hc2⟩ := ih q st E hwtail hInv
        rw [hstep]
        refine ⟨?_, ?_, hc2⟩
        · intro w' hw'
          rcases List.mem_cons.mp hw' with hw' | hw'
          · subst hw'; exact hw w' (by simp)
          · exact ha w' hw'
        · have hwid2 : windowIds (w :: (assignGo repo t q st ws).1)
              = windowIds (assignGo repo t q st ws).1 := by
            simp [windowIds, hcw]
          rw [hwid2]
          exact hb2
      | some c0 =>
        have hwid : windowIds (w :: ws) = c0.customer_id :: windowIds ws := by
          simp [windowIds, hcw]
        have hInv2 : StInv st
            (queueIds q ++ ((E ++ [c0.customer_id]) ++ windowIds ws)) := by
          rw [hwid] at hInv
          refine hInv.perm (List.Perm.append_left _ ?_)
          have h3 : (E ++ [c0.customer_id]) ++ windowIds ws
              = E ++ (c0.customer_id :: windowIds ws) := by simp
          rw [h3]
        obtain ⟨ha, hb2, hc2⟩ := ih q st (E ++ [c0.customer_id]) hwtail hInv2
        rw [hstep]
        refine ⟨?_, ?_, hc2⟩
        · intro w' hw'
          rcases List.mem_cons.mp hw' with hw' | hw'
          · subst hw'; exact hw w' (by simp)
          · exact ha w' hw'
        · have hwid2 : windowIds (w :: (assignGo repo t q st ws).1)
              = c0.customer_id :: windowIds (assignGo repo t q st ws).1 := by
            simp [windowIds, hcw]
          rw [hwid2]
          refine hb2.perm (List.Perm.append_left _ ?_)
          have h3 : (E ++ [c0.customer_id]) ++ windowIds (assignGo repo t q st ws).1
              = E ++ (c0.customer_id :: windowIds (assignGo repo t q st ws).1) := by
            simp
          rw [h3]

/-- Draining the queue at closing flags every waiting customer's record
as left-at-closing, leaving only window-held ids in place. -/
lemma closing_fold_spec (ct : ℚ) :
    ∀ (q : List Customer) (st : ClinicSimulationState) (E : List ℕ),
      StInv st (queueIds q ++ E) →
      StInv (q.foldl
        (fun st c => st.record_customer_left_at_closing c ct) st) E ∧
      (q.foldl (fun st c => st.record_customer_left_at_closing c ct)
          st).customer_records.map (fun r => r.customer_id)
        = st.customer_records.map (fun r => r.customer_id) := by
  intro q
  induction q with
  | nil => intro st E h; exact ⟨by simpa [queueIds] using h, rfl⟩
  | cons c q' ih =>
    intro st E h
    have h1 : StInv st (c.customer_id :: (queueIds q' ++ E)) := by
      simpa [queueIds] using h
    obtain ⟨h2, hids⟩ := h1.left c rfl ct
    obtain ⟨h3, hids'⟩ := ih (st.record_customer_left_at_closing c ct) E h2
    exact ⟨by simpa using h3, by
      simp only [List.foldl_cons]
      rw [hids', hids]⟩

-- ### Simulator-level invariant preservation

lemma SimInv.time {sim : ClinicQueueSimulator} (h : SimInv sim) (τ : ℚ) :
    SimInv { sim with current_time := τ } :=
  ⟨h.stInv, h.winAvail, h.pendNodup, h.pendFresh⟩

lemma SimInv.arrivals {sim : ClinicQueueSimulator} (h : SimInv sim)
    (t : ℚ) : SimInv (sim.process_arrivals t) := by
  have hnewsub : ((sim.pending_arrivals.filter
      (fun c => decide (c.arrival_time ≤ t))).map
        (fun c => c.customer_id)).Sublist
      (sim.pending_arrivals.map (fun c => c.customer_id)) :=
    (List.filter_sublist _).map _
  have hnewnd : ((sim.pending_arrivals.filter
      (fun c => decide (c.arrival_time ≤ t))).map
        (fun c => c.customer_id)).Nodup :=
    hnewsub.nodup h.pendNodup
  have hnewfresh : ∀ c ∈ sim.pending_arrivals.filter
      (fun c => decide (c.arrival_time ≤ t)),
      c.customer_id ∉ sim.simulation_state.customer_records.map
        (fun r => r.customer_id) :=
    fun c hc => h.pendFresh c (List.mem_of_mem_filter hc)
  obtain ⟨hInv, hids⟩ := StInv.arrivals_fold
    (sim.pending_arrivals.filter (fun c => decide (c.arrival_time ≤ t)))
    sim.simulation_state (placeIds sim) h.stInv hnewnd hnewfresh
  refine ⟨?_, h.winAvail, ?_, ?_⟩
  · refine hInv.perm ?_
    simp only [placeIds, ClinicQueueSimulator.process_arrivals, queueIds,
      List.map_append, List.append_assoc]
    exact List.Perm.append_left _ (List.perm_append_comm)
  · exact ((List.filter_sublist _).map _).nodup h.pendNodup
  · intro c hc
    simp only [ClinicQueueSimulator.process_arrivals]
    rw [hids]
    simp only [List.mem_append]
    rintro (hmem | hmem)
    · exact h.pendFresh c (List.mem_of_mem_filter hc) hmem
    · obtain ⟨d, hd, hdc⟩ := List.mem_map.mp hmem
      have hcd : c = d := List.inj_on_of_nodup_map h.pendNodup
        (List.mem_of_mem_filter hc) (List.mem_of_mem_filter hd) hdc.symm
      have hcC := List.of_mem_filter hc
      have hdC := List.of_mem_filter hd
      rw [← hcd] at hdC
      simp only [Bool.not_eq_true', decide_eq_false_iff_not] at hcC
      simp only [decide_eq_true_eq] at hdC
      exact hcC hdC

lemma SimInv.completions {sim : ClinicQueueSimulator} (h : SimInv sim)
    (t : ℚ) : SimInv (sim.process_service_completions t) := by
  obtain ⟨ha, hb, hc⟩ := processCompletionsGo_spec t sim.service_windows
    sim.simulation_state (queueIds sim.queue) h.winAvail h.stInv
  refine ⟨hb, ha, h.pendNodup, ?_⟩
  intro c hcp
  simp only [ClinicQueueSimulator.process_service_completions]
  rw [hc]
  exact h.pendFresh c hcp

lemma SimInv.assign {sim : ClinicQueueSimulator} (h : SimInv sim)
    (t : ℚ) : SimInv (sim.assign_customers_to_windows t) := by
  have hst : StInv sim.simulation_state
      (queueIds sim.queue ++ ([] ++ windowIds sim.service_windows)) := by
    simpa [placeIds] using h.stInv
  obtain ⟨ha, hb, hc⟩ := assignGo_spec sim.service_times_repo t
    sim.service_windows sim.queue sim.simulation_state [] h.winAvail hst
  refine ⟨by simpa [placeIds] using hb, ha, h.pendNodup, ?_⟩
  intro c hcp
  simp only [ClinicQueueSimulator.assign_customers_to_windows]
  rw [hc]
  exact h.pendFresh c hcp

lemma SimInv.closing {sim : ClinicQueueSimulator} (h : SimInv sim)
    (ct : ℚ) : SimInv (sim.handle_closing_time ct) := by
  have hst : StInv sim.simulation_state
      (queueIds sim.queue ++ windowIds sim.service_windows) := h.stInv
  obtain ⟨hInv, hids⟩ := closing_fold_spec ct sim.queue
    sim.simulation_state (windowIds sim.service_windows) hst
  refine ⟨by simpa [placeIds, queueIds] using hInv, h.winAvail,
    h.pendNodup, ?_⟩
  intro c hcp
  simp only [ClinicQueueSimulator.handle_closing_time]
  rw [hids]
  exact h.pendFresh c hcp

/-- The broken optimization call returns the simulator unchanged whenever
it returns at all (it only completes with at most one queued customer). -/
lemma optimize_queue_ok_eq {sim s' : ClinicQueueSimulator}
    (h : sim.optimize_queue = Except.ok s') : s' = sim := by
  unfold ClinicQueueSimulator.optimize_queue at h
  split at h
  · simp [callUpdateQueueImproved] at h
  · simpa using h.symm

/-- The main event loop preserves the simulator invariant on every run
that exits normally. -/
lemma simLoop_inv (ct oi : ℚ) :
    ∀ (fuel : ℕ) (sim : ClinicQueueSimulator) (lo : ℚ)
      (out : ClinicQueueSimulator), SimInv sim →
      simLoop ct oi fuel sim lo = some (Except.ok out) → SimInv out := by
  intro fuel
  induction fuel with
  | zero => intro sim lo out _ hrun; simp [simLoop] at hrun
  | succ fuel ih =>
    intro sim lo out h hrun
    simp only [simLoop] at hrun
    split at hrun
    · -- current_time < closing: run the four phases
      have h3 : SimInv ((sim.process_arrivals
          sim.current_time).process_service_completions
            (sim.process_arrivals sim.current_time).current_time
          |>.assign_customers_to_windows
            ((sim.process_arrivals
              sim.current_time).process_service_completions
                (sim.process_arrivals sim.current_time).current_time).current_time) :=
        ((h.arrivals sim.current_time).completions _).assign _
      split at hrun
      · next e heq =>
        exact absurd hrun (by simp)
      · next s4 heq =>
        have hs4 : SimInv s4 := by
          split at heq
          · rw [optimize_queue_ok_eq heq]
            exact h3
          · next htr =>
            have heq2 := (Except.ok.injEq .. ▸ heq : _)
            rw [← (by simpa using heq : ((sim.process_arrivals
              sim.current_time).process_service_completions
                (sim.process_arrivals sim.current_time).current_time
              |>.assign_customers_to_windows
                ((sim.process_arrivals
                  sim.current_time).process_service_completions
                    (sim.process_arrivals
                      sim.current_time).current_time).current_time) = s4)]
            exact h3
        split at hrun
        · simp only [Option.some.injEq, Except.ok.injEq] at hrun
          rw [← hrun]
          exact hs4.time ct
        · split at hrun
          · simp only [Option.some.injEq, Except.ok.injEq] at hrun
            rw [← hrun]
            exact hs4.time ct
          · exact ih _ _ _ (hs4.time _) hrun
    · simp only [Option.some.injEq, Except.ok.injEq] at hrun
      rw [← hrun]
      exact h

/-- The wind-down loop preserves the invariant and never touches the
queue or the pending list. -/
lemma graceLoop_inv (mw : ℚ) :
    ∀ (fuel : ℕ) (sim out : ClinicQueueSimulator), SimInv sim →
      graceLoop mw fuel sim = some out →
      SimInv out ∧ out.queue = sim.queue := by
  intro fuel
  induction fuel with
  | zero => intro sim out _ hrun; simp [graceLoop] at hrun
  | succ fuel ih =>
    intro sim out h hrun
    simp only [graceLoop] at hrun
    split at hrun
    · split at hrun
      · simp only [Option.some.injEq] at hrun
        rw [← hrun]
        exact ⟨h.completions _, rfl⟩
      · split at hrun
        · simp only [Option.some.injEq] at hrun
          rw [← hrun]
          exact ⟨h.completions _, rfl⟩
        · obtain ⟨h1, h2⟩ := ih _ _ ((h.completions sim.current_time).time _) hrun
          exact ⟨h1, h2⟩
    · simp only [Option.some.injEq] at hrun
      rw [← hrun]
      exact ⟨h, rfl⟩

/-- Ids assigned by `numberArrivals` are consecutive from the start
index. -/
lemma numberArrivals_ids :
    ∀ (l : List (ℚ × String)) (n : ℕ),
      (numberArrivals n l).map (fun c => c.customer_id)
        = List.range' n l.length := by
  intro l
  induction l with
  | nil => intro n; rfl
  | cons a l ih => intro n; simp [numberArrivals, List.range', ih]

/-- All windows reported idle hold no customer. -/
lemma windowIds_nil_of_all_avail {ws : List ServiceWindow}
    (hiff : ∀ w ∈ ws, w.is_available = true ↔ w.current_customer = none)
    (hall : ws.all (fun w => w.is_available) = true) :
    windowIds ws = [] := by
  rw [windowIds, List.filterMap_eq_nil_iff]
  intro w hw
  have hav : w.is_available = true := by
    rw [List.all_eq_true] at hall
    exact hall w hw
  rw [(hiff w hw).mp hav]
  rfl

/-- A record list whose every entry carries exactly one of the two flags
splits its length across the two filters. -/
lemma filter_flag_partition :
    ∀ (recs : List CustomerRecord),
      (∀ r ∈ recs, (r.was_served = true ∨ r.left_at_closing = true) ∧
        (r.was_served = false ∨ r.left_at_closing = false)) →
      (recs.filter (fun r => r.was_served)).length
        + (recs.filter (fun r => r.left_at_closing)).length
        = recs.length := by
  intro recs
  induction recs with
  | nil => intro _; rfl
  | cons r recs ih =>
    intro h
    have hr := h r (by simp)
    have hrest := ih (fun r0 hr0 => h r0 (by simp [hr0]))
    rcases hr with ⟨h1 | h1, h2 | h2⟩ <;>
      simp [List.filter_cons, h1, h2] at * <;> omega

/-- C3 (amended conservation law): whenever `simulate_day` returns
normally from an initially empty queue and its wind-down ends with every
window idle (i.e. every service in progress at closing finished within
the one-hour grace period), every recorded customer ends the day served
or left-at-closing — never both — and the served and left counters sum
exactly to the arrived counter. -/
theorem C3_served_xor_left_and_counts_sum (sim : ClinicQueueSimulator)
    (arrivals : List (ℚ × String)) (interval : ℚ) (fuel : ℕ)
    (out : ClinicQueueSimulator)
    (hq0 : sim.queue = [])
    (hrun : sim.simulate_day arrivals interval fuel = some (Except.ok out))
    (hdone : out.service_windows.all (fun w => w.is_available) = true) :
    (∀ r ∈ out.simulation_state.customer_records,
      (r.was_served = true ∨ r.left_at_closing = true) ∧
      ¬(r.was_served = true ∧ r.left_at_closing = true)) ∧
    out.simulation_state.total_customers_served
      + out.simulation_state.total_customers_left_at_closing
      = out.simulation_state.total_customers_arrived := by
  simp only [ClinicQueueSimulator.simulate_day] at hrun
  -- the state entering the main loop satisfies the invariant
  have hinit : SimInv { (sim.setup_service_windows).load_arrivals arrivals with
      simulation_state := ⟨[], 0, 0, 0⟩
      current_time := (sim.opening_hour : ℚ) * 60 } := by
    have hqe : ((sim.setup_service_windows).load_arrivals arrivals).queue
        = [] := hq0
    have hwin : ∀ w ∈ ((sim.setup_service_windows).load_arrivals
        arrivals).service_windows,
        w.is_available = true ↔ w.current_customer = none := by
      intro w hw
      simp only [ClinicQueueSimulator.load_arrivals,
        ClinicQueueSimulator.setup_service_windows] at hw
      obtain ⟨i, _, hi⟩ := List.mem_map.mp hw
      rw [← hi]
      simp
    have hwid : windowIds ((sim.setup_service_windows).load_arrivals
        arrivals).service_windows = [] := by
      simp only [ClinicQueueSimulator.load_arrivals,
        ClinicQueueSimulator.setup_service_windows, windowIds]
      rw [List.filterMap_eq_nil_iff]
      intro w hw
      obtain ⟨i, _, hi⟩ := List.mem_map.mp hw
      rw [← hi]
      rfl
    refine ⟨⟨?_, rfl, rfl, rfl, ?_, ?_, ?_⟩, hwin, ?_, ?_⟩
    · simp
    · simp
    · simp only [placeIds]
      rw [hqe, hwid]
      simp [queueIds]
    · intro i
      simp only [placeIds]
      rw [hqe, hwid]
      simp [queueIds]
    · simp only [ClinicQueueSimulator.load_arrivals]
      rw [numberArrivals_ids]
      exact List.nodup_range' _ _
    · intro c _
      simp
  -- run the main loop
  cases hml : simLoop ((sim.closing_hour : ℚ) * 60) interval fuel
      { (sim.setup_service_windows).load_arrivals arrivals with
        simulation_state := ⟨[], 0, 0, 0⟩
        current_time := (sim.opening_hour : ℚ) * 60 }
      ((sim.opening_hour : ℚ) * 60) with
  | none => rw [hml] at hrun; exact absurd hrun (by simp)
  | some res =>
    rw [hml] at hrun
    cases res with
    | error e => exact absurd hrun (by simp)
    | ok s3 =>
      dsimp only at hrun
      have hs3 : SimInv s3 := simLoop_inv _ _ fuel _ _ _ hinit hml
      have hs4 : SimInv (s3.handle_closing_time
          ((sim.closing_hour : ℚ) * 60)) := hs3.closing _
      cases hgl : graceLoop ((sim.closing_hour : ℚ) * 60 + 60) fuel
          (s3.handle_closing_time ((sim.closing_hour : ℚ) * 60)) with
      | none => rw [hgl] at hrun; exact absurd hrun (by simp)
      | some s5 =>
        rw [hgl] at hrun
        simp only [Option.some.injEq, Except.ok.injEq] at hrun
        obtain ⟨hs5, hs5q⟩ := graceLoop_inv _ fuel _ _ hs4 hgl
        rw [← hrun] at hdone ⊢
        have hqnil : s5.queue = [] := by
          rw [hs5q]
          rfl
        have hplace : placeIds s5 = [] := by
          rw [placeIds, hqnil,
            windowIds_nil_of_all_avail hs5.winAvail hdone]
          rfl
        have hflags : ∀ r ∈ s5.simulation_state.customer_records,
            (r.was_served = true ∨ r.left_at_closing = true) ∧
            ¬(r.was_served = true ∧ r.left_at_closing = true) := by
          intro r hr
          constructor
          · by_contra hcon
            push_neg at hcon
            obtain ⟨h1, h2⟩ := hcon
            have hsf : r.was_served = false := by
              cases hb : r.was_served
              · rfl
              · exact absurd hb h1
            have hlf : r.left_at_closing = false := by
              cases hb : r.left_at_closing
              · rfl
              · exact absurd hb h2
            have := (hs5.stInv.placeMatch r.customer_id).mpr
              ⟨r, hr, rfl, hsf, hlf⟩
            rw [hplace] at this
            simp at this
          · intro ⟨h1, h2⟩
            rcases hs5.stInv.notBoth r hr with hc | hc
            · rw [h1] at hc; simp at hc
            · rw [h2] at hc; simp at hc
        refine ⟨hflags, ?_⟩
        rw [hs5.stInv.servedEq, hs5.stInv.leftEq, hs5.stInv.arrivedEq]
        exact filter_flag_partition _ (fun r hr =>
          ⟨(hflags r hr).1, by
            rcases hs5.stInv.notBoth r hr with hc | hc
            · exact Or.inl hc
            · exact Or.inr hc⟩)

theorem C3_served_xor_left_and_counts_sum_witness :
    (∀ r ∈ ({ simDefault with
        service_times_repo := fun _ => 5
        service_windows := [⟨0, true, none, none⟩, ⟨1, true, none, none⟩,
          ⟨2, true, none, none⟩]
        queue := []
        simulation_state :=
          ⟨[⟨0, "NP", 360, some 360, some 365, some 365, true, false⟩], 1, 1, 0⟩
        pending_arrivals := []
        current_time := 1080 } :
          ClinicQueueSimulator).simulation_state.customer_records,
      (r.was_served = true ∨ r.left_at_closing = true) ∧
      ¬(r.was_served = true ∧ r.left_at_closing = true)) ∧
    ({ simDefault with
        service_times_repo := fun _ => 5
        service_windows := [⟨0, true, none, none⟩, ⟨1, true, none, none⟩,
          ⟨2, true, none, none⟩]
        queue := []
        simulation_state :=
          ⟨[⟨0, "NP", 360, some 360, some 365, some 365, true, false⟩], 1, 1, 0⟩
        pending_arrivals := []
        current_time := 1080 } :
          ClinicQueueSimulator).simulation_state.total_customers_served
      + ({ simDefault with
        service_times_repo := fun _ => 5
        service_windows := [⟨0, true, none, none⟩, ⟨1, true, none, none⟩,
          ⟨2, true, none, none⟩]
        queue := []
        simulation_state :=
          ⟨[⟨0, "NP", 360, some 360, some 365, some 365, true, false⟩], 1, 1, 0⟩
        pending_arrivals := []
        current_time := 1080 } :
          ClinicQueueSimulator).simulation_state.total_customers_left_at_closing
      = ({ simDefault with
        service_times_repo := fun _ => 5
        service_windows := [⟨0, true, none, none⟩, ⟨1, true, none, none⟩,
          ⟨2, true, none, none⟩]
        queue := []
        simulation_state :=
          ⟨[⟨0, "NP", 360, some 360, some 365, some 365, true, false⟩], 1, 1, 0⟩
        pending_arrivals := []
        current_time := 1080 } :
          ClinicQueueSimulator).simulation_state.total_customers_arrived :=
  C3_served_xor_left_and_counts_sum
    { simDefault with service_times_repo := fun _ => 5 }
    [(360, "NP")] 10 5
    { simDefault with
        service_times_repo := fun _ => 5
        service_windows := [⟨0, true, none, none⟩, ⟨1, true, none, none⟩,
          ⟨2, true, none, none⟩]
        queue := []
        simulation_state :=
          ⟨[⟨0, "NP", 360, some 360, some 365, some 365, true, false⟩], 1, 1, 0⟩
        pending_arrivals := []
        current_time := 1080 }
    rfl
    (by norm_num [ClinicQueueSimulator.simulate_day,
      ClinicQueueSimulator.setup_service_windows,
      ClinicQueueSimulator.load_arrivals, numberArrivals, simLoop, graceLoop,
      ClinicQueueSimulator.process_arrivals,
      ClinicQueueSimulator.process_service_completions,
      processCompletionsGo, ClinicQueueSimulator.assign_customers_to_windows,
      assignGo, ClinicQueueSimulator.optimize_queue, callUpdateQueueImproved,
      ClinicQueueSimulator.handle_closing_time,
      ClinicQueueSimulator.get_next_event_time,
      ClinicSimulationState.add_customer_arrival,
      ClinicSimulationState.record_service_start,
      ClinicSimulationState.record_service_completion, updFirst,
      ServiceWindow.start_service, ServiceWindow.finish_service,
      ServiceWindow.is_service_complete,
      get_estimated_service_time, pyMin, pyMinAux, simDefault, List.filter,
      List.mergeSort, List.filterMap_cons, List.filterMap_nil, List.all_cons,
      List.all_nil])
    rfl
